import Mathlib

/-! MallocHelper: recognising malloc calls, their types and array sizes

A shallow embedding of `lib/Analysis/MallocHelper.cpp`.

Data model:

* A pointer to an IR object is a `Value`: the dynamic class of the object
  together with its address.  Two pointers are equal exactly when the handles
  are equal, so the C++ pointer comparisons become `=` on `Value`.
  `ConstantInt`s are uniqued by (type, value) and are represented by that pair.
* The fields the analysis reads through the pointer (operands, use list, type,
  enclosing module, opcode) are looked up in an `IR` record.
* `dyn_cast<C>` is a match on the class tag; `cast<C>` and `assert` are checked
  and end the computation with a `Fault` when they fail.
* A nullable pointer result is an `Option`.
* `ConstantExpr::getSizeOf`, `ConstantExpr::getTruncOrBitCast` and
  `ConstantFoldConstantExpression` live outside this file and are taken as
  parameters (`Lib`).
-/

namespace MallocHelper

/-- Types of the IR, as far as the analysis inspects them: integer types,
pointer types with their element type, and every other type (floating point,
void, structures, ...).  Vector types are not represented, so the scalar type
of a type is the type itself. -/
inductive Ty where
  | int (bits : Nat)
  | ptr (elem : Ty)
  | other (tag : Nat)
  deriving DecidableEq, Repr

/-- A `PointerType`: a type known to be a pointer, with its element type. -/
structure PointerType where
  elem : Ty
  deriving DecidableEq, Repr

/-- The pointer type seen as a plain type. -/
def PointerType.toTy (p : PointerType) : Ty := Ty.ptr p.elem

/-- Address of an IR object inside its class. -/
abbrev Addr := Nat

/-- A (non-null) `Value*`: the dynamic class of the pointee and its address.
`ConstantInt`s are uniqued, so the handle is the (type, value) pair. -/
inductive Value where
  | callInst (a : Addr)
  | bitCastInst (a : Addr)
  | binaryOperator (a : Addr)
  | otherInst (a : Addr)
  | constantInt (ty : Ty) (val : Nat)
  | constantExpr (a : Addr)
  | function (a : Addr)
  | otherConstant (a : Addr)
  | otherValue (a : Addr)
  deriving DecidableEq, Repr

/-- Opcodes of `BinaryOperator`. -/
inductive BinaryOps where
  | Add | FAdd | Sub | FSub | Mul | FMul
  | UDiv | SDiv | FDiv | URem | SRem | FRem
  | Shl | LShr | AShr | And | Or | Xor
  deriving DecidableEq, Repr

/-- What the analysis reads from a `CallInst`. -/
structure CallData where
  /-- The enclosing module, `getParent()->getParent()->getParent()`. -/
  module : Nat
  /-- The callee, `getOperand(0)`. -/
  callee : Value
  /-- The actual arguments, `getOperand(1)`, `getOperand(2)`, ... -/
  args : List Value
  /-- The type of the call's result, `getType()`. -/
  ty : Ty
  /-- The users on the use list, from `use_begin()` to `use_end()`. -/
  uses : List Value

/-- What the analysis reads from a `BitCastInst`. -/
structure BitCastData where
  /-- The operand, `getOperand(0)`. -/
  operand : Value
  /-- The destination type, `getDestTy()`. -/
  destTy : Ty

/-- What the analysis reads from a `BinaryOperator`. -/
structure BinOpData where
  opcode : BinaryOps
  /-- The left operand, `getOperand(0)`. -/
  lhs : Value
  /-- The right operand, `getOperand(1)`. -/
  rhs : Value
  ty : Ty

/-- The in-memory program the queries run on. -/
structure IR where
  call : Addr → CallData
  bitcast : Addr → BitCastData
  binop : Addr → BinOpData
  /-- The type, `getType()`, of the values of the remaining classes. -/
  otherTy : Value → Ty
  /-- Operand list of the users of the remaining classes. -/
  otherOperands : Value → List Value
  /-- Symbol lookup `M->getFunction(Name)` in module `M`: the function, or null. -/
  getFunction : Nat → String → Option Addr

/-- The checks whose failure aborts the program. -/
inductive Fault where
  /-- Failure of `assert(isMalloc(CI) && "GetMallocType and not malloc call")`. -/
  | notMallocCall
  /-- Failure of `cast<Instruction>` on a user that is not an instruction. -/
  | castInstruction
  /-- Failure of `cast<PointerType>` on a type that is not a pointer type. -/
  | castPointerType
  /-- Failure of `cast<ConstantExpr>` on a constant that is not a constant expression. -/
  | castConstantExpr
  /-- Failure of the range assertion of `getOperand(i)`. -/
  | operandOutOfRange
  /-- Failure of `cast<IntegerType>` on a type that is not an integer type. -/
  | castIntegerType
  /-- Failure of `assert(getMallocAllocatedType(CI) && "getMallocArraySize and no type")`. -/
  | noType
  /-- Failure of `assert(... && "getMallocArraySize and malformed malloc IR")`. -/
  | malformedMallocIR
  /-- Failure of `assert(BO && "getMallocArraySize not constant but not multiplication either")`. -/
  | notMultiplication
  deriving DecidableEq, Repr

/-- The constant factory and the constant folder, which are not part of this
file.  `Context` and `TD` are fixed inside `fold`. -/
structure Lib where
  /-- The constant `ConstantExpr::getSizeOf(T)`. -/
  getSizeOf : Ty → Value
  /-- The constant `ConstantExpr::getTruncOrBitCast(C, Ty)`. -/
  getTruncOrBitCast : Value → Ty → Value
  /-- The result of `ConstantFoldConstantExpression(CE, Context, TD)`: the folded constant,
  or null when it could not fold. -/
  fold : Value → Option Value

/-! ## Generic accessors -/

/-- Dynamic class test `isa<Instruction>`. -/
def isInstruction : Value → Bool
  | .callInst _ | .bitCastInst _ | .binaryOperator _ | .otherInst _ => true
  | _ => false

/-- Dynamic class test `isa<Constant>`. -/
def isConstant : Value → Bool
  | .constantInt _ _ | .constantExpr _ | .function _ | .otherConstant _ => true
  | _ => false

/-- Dynamic class test `isa<ConstantExpr>`. -/
def isConstantExpr : Value → Bool
  | .constantExpr _ => true
  | _ => false

/-- The type of a value, `V->getType()`. -/
def getType (ir : IR) : Value → Ty
  | .callInst a => (ir.call a).ty
  | .bitCastInst a => (ir.bitcast a).destTy
  | .binaryOperator a => (ir.binop a).ty
  | .constantInt ty _ => ty
  | v => ir.otherTy v

/-- The operand list of a user. -/
def operands (ir : IR) : Value → List Value
  | .callInst a => (ir.call a).callee :: (ir.call a).args
  | .bitCastInst a => [(ir.bitcast a).operand]
  | .binaryOperator a => [(ir.binop a).lhs, (ir.binop a).rhs]
  | .constantInt _ _ => []
  | .function _ => []
  | .otherValue _ => []
  | v => ir.otherOperands v

/-- Operand access `U->getOperand(i)`, which asserts that `i` is in range. -/
def getOperand (ir : IR) (u : Value) (i : Nat) : Except Fault Value :=
  match (operands ir u)[i]? with
  | some v => .ok v
  | none => .error .operandOutOfRange

/-- The checked downcast `cast<PointerType>(T)`. -/
def castPointerType : Ty → Except Fault PointerType
  | .ptr e => .ok ⟨e⟩
  | _ => .error .castPointerType

/-- The uniqued literal `ConstantInt::get(Ty, V)`.  It starts with
`cast<IntegerType>(Ty->getScalarType())`, which aborts when the type is not an
integer type. -/
def ConstantInt.get (ty : Ty) (v : Nat) : Except Fault Value :=
  match ty with
  | .int _ => .ok (.constantInt ty v)
  | _ => .error .castIntegerType

/-! ## malloc Call Utility Functions -/

/-- Source function `isMallocCall(CI)`, for a `CallInst*` that may be null. -/
def isMallocCall (ir : IR) (CI : Option Addr) : Bool :=
  match CI with
  | none => false
  | some c =>
    let M := (ir.call c).module
    let MallocFunc : Option Value := (ir.getFunction M "malloc").map Value.function
    if some (ir.call c).callee ≠ MallocFunc then false else true

/-- The downcast `dyn_cast<CallInst>(I)`. -/
def dynCastCallInst : Value → Option Addr
  | .callInst a => some a
  | _ => none

/-- The downcast `dyn_cast<BitCastInst>(I)`. -/
def dynCastBitCastInst : Value → Option Addr
  | .bitCastInst a => some a
  | _ => none

/-- The downcast `dyn_cast<BinaryOperator>(I)`. -/
def dynCastBinaryOperator : Value → Option Addr
  | .binaryOperator a => some a
  | _ => none

/-- Source function `extractMallocCall(I)`: the `CallInst` if the instruction is a malloc
call, else null. -/
def extractMallocCall (ir : IR) (I : Value) : Option Addr :=
  let CI := dynCastCallInst I
  if isMallocCall ir CI then CI else none

/-- Source function `isBitCastOfMallocCall(BCI)`, for a `BitCastInst*` that may be null. -/
def isBitCastOfMallocCall (ir : IR) (BCI : Option Addr) : Bool :=
  match BCI with
  | none => false
  | some b => isMallocCall ir (dynCastCallInst (ir.bitcast b).operand)

/-- Source function `extractMallocCallFromBitCast(I)`: the `CallInst` if the instruction is a
bitcast of the result of a malloc call, else null. -/
def extractMallocCallFromBitCast (ir : IR) (I : Value) : Option Addr :=
  let BCI := dynCastBitCastInst I
  if isBitCastOfMallocCall ir BCI then
    match BCI with
    | some b => dynCastCallInst (ir.bitcast b).operand
    | none => none
  else none

/-- Source function `isMalloc(I)`: the value is a malloc call or a bitcast of the result of a
malloc call. -/
def isMalloc (ir : IR) (I : Value) : Bool :=
  (extractMallocCall ir I).isSome || (extractMallocCallFromBitCast ir I).isSome

/-- The use-list scan of `getMallocType`: walks the users in order, checks
with `cast<Instruction>` that each one is an instruction, and stops at the
first `BitCastInst`.  Null when the scan reaches the end of the list. -/
def findBitCastUse : List Value → Except Fault (Option Addr)
  | [] => .ok none
  | U :: rest =>
    if isInstruction U then
      match dynCastBitCastInst U with
      | some BCI => .ok (some BCI)
      | none => findBitCastUse rest
    else .error .castInstruction

/-- The test `CI->hasOneUse()`. -/
def hasOneUse (ir : IR) (CI : Addr) : Bool :=
  (ir.call CI).uses.length == 1

/-- Source function `getMallocType(CI)`: the `PointerType` resulting from the malloc call,
or null. -/
def getMallocType (ir : IR) (CI : Addr) : Except Fault (Option PointerType) :=
  if isMalloc ir (.callInst CI) then
    -- Determine if CallInst has a bitcast use.
    match findBitCastUse (ir.call CI).uses with
    | .error f => .error f
    | .ok (some BCI) =>
      -- Malloc call has 1 bitcast use and no other uses, so type is the
      -- destination type of the bitcast.
      if hasOneUse ir CI then
        match castPointerType (ir.bitcast BCI).destTy with
        | .ok PT => .ok (some PT)
        | .error f => .error f
      else
        -- Type could not be determined.
        .ok none
    | .ok none =>
      -- Malloc call was not bitcast, so the type is the return type of malloc.
      match castPointerType (ir.call CI).ty with
      | .ok PT => .ok (some PT)
      | .error f => .error f
  else .error .notMallocCall

/-- Source function `getMallocAllocatedType(CI)`: the type allocated by the malloc call, or
null. -/
def getMallocAllocatedType (ir : IR) (CI : Addr) : Except Fault (Option Ty) :=
  match getMallocType ir CI with
  | .error f => .error f
  | .ok PT => .ok (PT.map PointerType.elem)

/-- Source function `isArrayMallocHelper(CI, Context, TD)`, for a `CallInst*` that may be
null. -/
def isArrayMallocHelper (L : Lib) (ir : IR) (CI : Option Addr) : Except Fault Bool :=
  match CI with
  | none => .ok false
  | some c =>
    match getMallocAllocatedType ir c with
    | .error f => .error f
    -- We can only identify an array malloc if we know the type of the malloc
    -- call.
    | .ok none => .ok false
    | .ok (some T) =>
      match getOperand ir (.callInst c) 1 with
      | .error f => .error f
      | .ok MallocArg =>
        let ElementSize := L.getTruncOrBitCast (L.getSizeOf T) (getType ir MallocArg)
        if isConstantExpr ElementSize then
          let FoldedElementSize := L.fold ElementSize
          if isConstantExpr MallocArg then
            .ok (decide (MallocArg ≠ ElementSize))
          else
            match dynCastBinaryOperator MallocArg with
            | none => .ok false
            | some BI =>
              if (ir.binop BI).opcode = BinaryOps.Mul ∧
                  ((ir.binop BI).rhs = ElementSize ∨
                    (FoldedElementSize.isSome ∧
                      some (ir.binop BI).rhs = FoldedElementSize)) then
                .ok true
              else .ok false
        else .error .castConstantExpr

/-- Source function `isArrayMalloc(I, Context, TD)`: the `CallInst` if the instruction matches
the malloc call IR generated by `CallInst::CreateMalloc()`, else null. -/
def isArrayMalloc (L : Lib) (ir : IR) (I : Value) : Except Fault (Option Addr) :=
  let CI := extractMallocCall ir I
  match isArrayMallocHelper L ir CI with
  | .error f => .error f
  | .ok b => .ok (if b then CI else none)

/-- Source function `isConstantOne(val)`: true only if `val` is constant int 1. -/
def isConstantOne : Value → Bool
  | .constantInt _ v => v == 1
  | _ => false

/-- The downcast `dyn_cast<Constant>(V)`. -/
def dynCastConstant (V : Value) : Option Value :=
  if isConstant V then some V else none

/-- Source function `getMallocArraySize(CI, Context, TD)`: the array size of a malloc call. -/
def getMallocArraySize (L : Lib) (ir : IR) (CI : Addr) : Except Fault Value :=
  match isArrayMalloc L ir (.callInst CI) with
  | .error f => .error f
  | .ok none =>
    -- The constant 1 array size of a non-array malloc.
    match getOperand ir (.callInst CI) 1 with
    | .error f => .error f
    | .ok Arg => ConstantInt.get (getType ir Arg) 1
  | .ok (some _) =>
    match getOperand ir (.callInst CI) 1 with
    | .error f => .error f
    | .ok MallocArg =>
      match getMallocAllocatedType ir CI with
      | .error f => .error f
      | .ok none => .error .noType
      | .ok (some T) =>
        let ElementSize := L.getTruncOrBitCast (L.getSizeOf T) (getType ir MallocArg)
        let CO := dynCastConstant MallocArg
        let BO := dynCastBinaryOperator MallocArg
        if isConstantOne ElementSize || CO.isSome || BO.isSome then
          if isConstantOne ElementSize then .ok MallocArg
          else
            match CO with
            | some C => getOperand ir C 0
            | none =>
              match BO with
              | some B => .ok (ir.binop B).lhs
              | none => .error .notMultiplication
        else .error .malformedMallocIR

/-! ## A concrete program

One module (number 0) that declares `malloc` (function 0) and another function
(function 1).  The integer type of the size argument is `i32`, the calls return
`i8*` unless said otherwise and `bitcast a` casts the result of `call a`.

* `call 0`: `malloc(mul i32 10, 4)`, only use a bitcast to `i32*`.
* `call 1`: `malloc(i32 4)`, only use a bitcast to `i32*`.
* `call 2`: `malloc(mul i32 10, 4)`, one bitcast use to `i32*` and one other use.
* `call 3`: a call of function 1 (which is not `malloc`).
* `call 4`: `malloc(sizeof(i32))`, the unfolded constant, only use a bitcast to `i32*`.
* `call 5`: `malloc(mul (i32 10, sizeof(i32)))`, a constant expression, only use
  a bitcast to `i32*`.
* `call 6`: `malloc(i32 4)` without uses.
* `call 7`: `malloc(i32 4)` with two uses, neither of them a bitcast.
* `call 8`: `malloc(i32 4)`, only use a bitcast to `i8*`.
* `call 9`: `malloc(i32 4)` where `malloc` is declared to return `i32`; no uses.
-/

/-- The type `i32`. -/
def i32 : Ty := Ty.int 32

/-- The type `i8*`. -/
def i8Ptr : Ty := Ty.ptr (Ty.int 8)

/-- The type `i32*`. -/
def i32Ptr : Ty := Ty.ptr (Ty.int 32)

/-- The example program described above. -/
def exIR : IR where
  call := fun a =>
    { module := 0
      callee := if a = 3 then Value.function 1 else Value.function 0
      args :=
        if a = 0 ∨ a = 2 then [Value.binaryOperator 0]
        else if a = 4 then [Value.constantExpr 11]
        else if a = 5 then [Value.constantExpr 13]
        else [Value.constantInt i32 4]
      ty := if a = 9 then i32 else i8Ptr
      uses :=
        if a = 2 then [Value.bitCastInst 2, Value.otherInst 0]
        else if a = 6 ∨ a = 9 then []
        else if a = 7 then [Value.otherInst 0, Value.otherInst 1]
        else [Value.bitCastInst a] }
  bitcast := fun a =>
    { operand := Value.callInst a
      destTy := if a = 8 then i8Ptr else i32Ptr }
  binop := fun _ =>
    { opcode := BinaryOps.Mul
      lhs := Value.constantInt i32 10
      rhs := Value.constantInt i32 4
      ty := i32 }
  otherTy := fun _ => i32
  otherOperands := fun v =>
    if v = Value.constantExpr 13 then [Value.constantInt i32 10, Value.constantExpr 11]
    else []
  getFunction := fun m name => if m = 0 ∧ name = "malloc" then some 0 else none

/-- A constant factory and folder for the example: `sizeof(i32)` is constant
expression 1, its coercion to `i32` is constant expression 11, which folds to
the literal 4. -/
def exLib : Lib where
  getSizeOf := fun T => if T = Ty.int 32 then Value.constantExpr 1 else Value.constantExpr 2
  getTruncOrBitCast := fun C ty =>
    if ty = Ty.int 64 then C
    else match C with
      | Value.constantExpr a => Value.constantExpr (a + 10)
      | c => c
  fold := fun C =>
    if C = Value.constantExpr 11 then some (Value.constantInt i32 4) else none

/-! ## A second concrete program

One module (number 0) that declares `malloc` (function 0).  The size argument
has type `i32` and `bitcast a` casts the result of `call a`, to `i32*` unless
said otherwise.  The
constant expressions are: 11, 12 and 13, the element-size constants of `i32`,
`float` and `i8` coerced to `i32`; 20, the product `mul (i32 10, sizeof(i8))`;
30, the address `getelementptr (float* null, i32 1)` that constant expression
12 converts to an integer.

* `call 0`: `malloc(mul i32 %n, 1)` without uses, where `%n` is `otherValue 0`.
* `call 1`: `malloc(sizeof(float))`, only use a bitcast to `i32*`.
* `call 2`: `malloc(i32 40)`, only use a bitcast to `i32*`.
* `call 3`: `malloc(i32 4)` whose only user is not an instruction.
* `call 4`: `malloc(i32 4)` where `malloc` is declared to return `i32`; no uses.
* `call 5`: `malloc(mul (i32 10, sizeof(i8)))`, a constant expression; no uses.
* `call 6`: `malloc(i32 4)` where `malloc` is declared to return `i32`; only use
  a bitcast to `float`.
-/

/-- The type `float`. -/
def floatTy : Ty := Ty.other 0

/-- The second example program described above. -/
def exIR2 : IR where
  call := fun a =>
    { module := 0
      callee := Value.function 0
      args :=
        if a = 0 then [Value.binaryOperator 0]
        else if a = 1 then [Value.constantExpr 12]
        else if a = 2 then [Value.constantInt i32 40]
        else if a = 5 then [Value.constantExpr 20]
        else [Value.constantInt i32 4]
      ty := if a = 4 ∨ a = 6 then i32 else i8Ptr
      uses :=
        if a = 1 ∨ a = 2 ∨ a = 6 then [Value.bitCastInst a]
        else if a = 3 then [Value.otherValue 5]
        else [] }
  bitcast := fun a =>
    { operand := Value.callInst a
      destTy := if a = 6 then floatTy else i32Ptr }
  binop := fun _ =>
    { opcode := BinaryOps.Mul
      lhs := Value.otherValue 0
      rhs := Value.constantInt i32 1
      ty := i32 }
  otherTy := fun v => if v = Value.constantExpr 30 then Ty.ptr floatTy else i32
  otherOperands := fun v =>
    if v = Value.constantExpr 12 then [Value.constantExpr 30]
    else if v = Value.constantExpr 20 then [Value.constantInt i32 10, Value.constantExpr 13]
    else if v = Value.constantExpr 30 then [Value.otherConstant 0, Value.constantInt i32 1]
    else []
  getFunction := fun m name => if m = 0 ∧ name = "malloc" then some 0 else none

/-- A constant factory and folder for the second example: the element-size
constants of `i32`, `float` and `i8` coerced to `i32` are the constant
expressions 11, 12 and 13, which fold to the literals 4, 4 and 1. -/
def exLib2 : Lib where
  getSizeOf := fun T =>
    if T = Ty.int 32 then Value.constantExpr 1
    else if T = floatTy then Value.constantExpr 2
    else Value.constantExpr 3
  getTruncOrBitCast := fun C ty =>
    if ty = Ty.int 64 then C
    else match C with
      | Value.constantExpr a => Value.constantExpr (a + 10)
      | c => c
  fold := fun C =>
    if C = Value.constantExpr 11 ∨ C = Value.constantExpr 12 then
      some (Value.constantInt i32 4)
    else if C = Value.constantExpr 13 then some (Value.constantInt i32 1)
    else none

/-! ## A third concrete program

One module (number 0) that declares `malloc` (function 0) and `free`
(function 1).

* `call 0`: `call void @free(i8* %p)`, where `%p` is `otherValue 0`.
* `call 1`: a call of function 1 without arguments.
-/

/-- The type `void`. -/
def voidTy : Ty := Ty.other 1

/-- The third example program described above. -/
def exIR3 : IR where
  call := fun a =>
    { module := 0
      callee := Value.function 1
      args := if a = 0 then [Value.otherValue 0] else []
      ty := voidTy
      uses := [] }
  bitcast := fun a =>
    { operand := Value.callInst a
      destTy := i8Ptr }
  binop := fun _ =>
    { opcode := BinaryOps.Add
      lhs := Value.constantInt i32 0
      rhs := Value.constantInt i32 0
      ty := i32 }
  otherTy := fun _ => i8Ptr
  otherOperands := fun _ => []
  getFunction := fun m name =>
    if m = 0 ∧ name = "malloc" then some 0
    else if m = 0 ∧ name = "free" then some 1
    else none

/-! ## Specification-side predicates -/

/-- The value is a call instruction whose callee operand is the function found
under the name "malloc" in the module enclosing the call. -/
def IsCallToMalloc (ir : IR) (v : Value) : Prop :=
  ∃ c f, v = Value.callInst c ∧
    ir.getFunction (ir.call c).module "malloc" = some f ∧
    (ir.call c).callee = Value.function f

/-- No user of the call is a bitcast instruction. -/
def NoBitCastUse (ir : IR) (CI : Addr) : Prop :=
  ∀ u ∈ (ir.call CI).uses, dynCastBitCastInst u = none

/-- Every user of the call is an instruction. -/
def UsesAreInstructions (ir : IR) (CI : Addr) : Prop :=
  ∀ u ∈ (ir.call CI).uses, isInstruction u = true

instance (ir : IR) (CI : Addr) : Decidable (NoBitCastUse ir CI) := by
  unfold NoBitCastUse
  infer_instance

instance (ir : IR) (CI : Addr) : Decidable (UsesAreInstructions ir CI) := by
  unfold UsesAreInstructions
  infer_instance

/-- The function `getMallocType` returns the raw result type of the call. -/
def ReturnsRawType (ir : IR) (CI : Addr) : Prop :=
  ∃ PT : PointerType, getMallocType ir CI = Except.ok (some PT) ∧ PT.toTy = (ir.call CI).ty

/-- The function `getMallocType` returns the destination type of a bitcast
that uses the call. -/
def ReturnsBitCastType (ir : IR) (CI : Addr) : Prop :=
  ∃ b, Value.bitCastInst b ∈ (ir.call CI).uses ∧
    ∃ PT : PointerType, getMallocType ir CI = Except.ok (some PT) ∧
      PT.toTy = (ir.bitcast b).destTy

/-- The element-size constant of `T` coerced to the type of the size argument:
`getTruncOrBitCast(getSizeOf(T), MallocArg->getType())`. -/
def elementSize (L : Lib) (ir : IR) (T : Ty) (MallocArg : Value) : Value :=
  L.getTruncOrBitCast (L.getSizeOf T) (getType ir MallocArg)

/-- The program `ir` with the left operand of multiply `m` replaced by `v`. -/
def setLhs (ir : IR) (m : Addr) (v : Value) : IR :=
  { ir with
    binop := fun a => if a = m then { ir.binop a with lhs := v } else ir.binop a }

/-! ## Basic facts about the recognisers -/

theorem isMallocCall_some (ir : IR) (c : Addr) :
    isMallocCall ir (some c) = true ↔
      ∃ f, ir.getFunction (ir.call c).module "malloc" = some f ∧
        (ir.call c).callee = Value.function f := by
  cases h : ir.getFunction (ir.call c).module "malloc" with
  | none => simp [isMallocCall, h]
  | some f => simp [isMallocCall, h, eq_comm]

theorem isMallocCall_dynCast_iff (ir : IR) (v : Value) :
    isMallocCall ir (dynCastCallInst v) = true ↔ IsCallToMalloc ir v := by
  cases v <;> simp [dynCastCallInst, IsCallToMalloc, isMallocCall_some] <;>
    simp [isMallocCall]

theorem extractMallocCall_isSome (ir : IR) (v : Value) :
    (extractMallocCall ir v).isSome = true ↔ IsCallToMalloc ir v := by
  rw [← isMallocCall_dynCast_iff]
  unfold extractMallocCall
  cases v <;> simp [dynCastCallInst, isMallocCall]

theorem extractMallocCall_callInst (ir : IR) (c : Addr) :
    extractMallocCall ir (Value.callInst c) =
      if isMallocCall ir (some c) then some c else none := by
  simp [extractMallocCall, dynCastCallInst]

theorem extractMallocCallFromBitCast_callInst (ir : IR) (c : Addr) :
    extractMallocCallFromBitCast ir (Value.callInst c) = none := by
  simp [extractMallocCallFromBitCast, dynCastBitCastInst, isBitCastOfMallocCall]

theorem isMalloc_callInst (ir : IR) (c : Addr) :
    isMalloc ir (Value.callInst c) = isMallocCall ir (some c) := by
  unfold isMalloc
  rw [extractMallocCallFromBitCast_callInst, extractMallocCall_callInst]
  cases isMallocCall ir (some c) <;> simp

theorem extractMallocCallFromBitCast_isSome (ir : IR) (v : Value) :
    (extractMallocCallFromBitCast ir v).isSome = true ↔
      ∃ b, v = Value.bitCastInst b ∧ IsCallToMalloc ir (ir.bitcast b).operand := by
  cases v with
  | bitCastInst b =>
    simp only [extractMallocCallFromBitCast, dynCastBitCastInst, isBitCastOfMallocCall,
      Value.bitCastInst.injEq, exists_eq_left']
    rw [← isMallocCall_dynCast_iff]
    cases hop : (ir.bitcast b).operand <;> simp [dynCastCallInst, isMallocCall]
  | _ => simp [extractMallocCallFromBitCast, dynCastBitCastInst, isBitCastOfMallocCall]

/-! ## C1 -/

/-- C1: a value is recognised by `isMalloc` exactly when it is a call
instruction whose callee operand is the function found under the name "malloc"
in its module, or a bitcast instruction whose operand is such a call.  In
particular `isMalloc` is false for a call to any other callee, for a call in a
module without a "malloc" symbol, and for a bitcast of a bitcast. -/
theorem isMalloc_iff (ir : IR) (v : Value) :
    (isMalloc ir v = true ↔
      (IsCallToMalloc ir v ∨
        ∃ b, v = Value.bitCastInst b ∧ IsCallToMalloc ir (ir.bitcast b).operand)) ∧
    (∀ c f, v = Value.callInst c →
      ir.getFunction (ir.call c).module "malloc" = some f →
      (ir.call c).callee ≠ Value.function f → isMalloc ir v = false) ∧
    (∀ c, v = Value.callInst c →
      ir.getFunction (ir.call c).module "malloc" = none → isMalloc ir v = false) ∧
    (∀ b b2, v = Value.bitCastInst b →
      (ir.bitcast b).operand = Value.bitCastInst b2 → isMalloc ir v = false) := by
  have key : isMalloc ir v = true ↔
      (IsCallToMalloc ir v ∨
        ∃ b, v = Value.bitCastInst b ∧ IsCallToMalloc ir (ir.bitcast b).operand) := by
    unfold isMalloc
    rw [Bool.or_eq_true, extractMallocCall_isSome, extractMallocCallFromBitCast_isSome]
  refine ⟨key, ?_, ?_, ?_⟩
  · intro c f hv hf hne
    rw [← Bool.not_eq_true, key]
    rintro (⟨c2, f2, h1, h2, h3⟩ | ⟨b, h1, _⟩)
    · rw [hv] at h1
      cases h1
      rw [hf] at h2
      cases h2
      exact hne h3
    · rw [hv] at h1
      cases h1
  · intro c hv hf
    rw [← Bool.not_eq_true, key]
    rintro (⟨c2, f2, h1, h2, _⟩ | ⟨b, h1, _⟩)
    · rw [hv] at h1
      cases h1
      rw [hf] at h2
      cases h2
    · rw [hv] at h1
      cases h1
  · intro b b2 hv hop
    rw [← Bool.not_eq_true, key]
    rintro (⟨c2, f2, h1, _, _⟩ | ⟨b3, h1, c2, f2, h2, _, _⟩)
    · rw [hv] at h1
      cases h1
    · rw [hv] at h1
      cases h1
      rw [hop] at h2
      cases h2

/-! ## The use-list scan and `getMallocType` -/

theorem castPointerType_ok_iff (t : Ty) (PT : PointerType) :
    castPointerType t = Except.ok PT ↔ t = PT.toTy := by
  cases PT with
  | mk e =>
    cases t <;> simp [castPointerType, PointerType.toTy]

theorem castPointerType_ptr (e : Ty) : castPointerType (Ty.ptr e) = Except.ok ⟨e⟩ := rfl

theorem findBitCastUse_none_of (us : List Value)
    (hinst : ∀ u ∈ us, isInstruction u = true)
    (hno : ∀ u ∈ us, dynCastBitCastInst u = none) :
    findBitCastUse us = Except.ok none := by
  induction us with
  | nil => rfl
  | cons u rest ih =>
    have h1 := hinst u (List.mem_cons_self _ _)
    have h2 := hno u (List.mem_cons_self _ _)
    simp only [findBitCastUse, h1, h2, if_true]
    exact ih (fun x hx => hinst x (List.mem_cons_of_mem _ hx))
      (fun x hx => hno x (List.mem_cons_of_mem _ hx))

theorem findBitCastUse_none_inv (us : List Value)
    (h : findBitCastUse us = Except.ok none) :
    ∀ u ∈ us, isInstruction u = true ∧ dynCastBitCastInst u = none := by
  induction us with
  | nil => simp
  | cons u rest ih =>
    unfold findBitCastUse at h
    cases hi : isInstruction u with
    | false => simp [hi] at h
    | true =>
      simp only [hi, if_true] at h
      cases hb : dynCastBitCastInst u with
      | some b => simp [hb] at h
      | none =>
        simp only [hb] at h
        intro x hx
        rcases List.mem_cons.mp hx with rfl | hx
        · exact ⟨hi, hb⟩
        · exact ih h x hx

theorem findBitCastUse_some_mem (us : List Value) (b : Addr)
    (h : findBitCastUse us = Except.ok (some b)) : Value.bitCastInst b ∈ us := by
  induction us with
  | nil => simp [findBitCastUse] at h
  | cons u rest ih =>
    unfold findBitCastUse at h
    cases hi : isInstruction u with
    | false => simp [hi] at h
    | true =>
      simp only [hi, if_true] at h
      cases u with
      | bitCastInst a =>
        simp only [dynCastBitCastInst, Except.ok.injEq, Option.some.injEq] at h
        subst h
        exact List.mem_cons_self _ _
      | _ =>
        simp only [dynCastBitCastInst] at h
        exact List.mem_cons_of_mem _ (ih h)

theorem findBitCastUse_some_of (us : List Value)
    (hinst : ∀ u ∈ us, isInstruction u = true) (b : Addr)
    (hb : Value.bitCastInst b ∈ us) :
    ∃ b2, findBitCastUse us = Except.ok (some b2) := by
  induction us with
  | nil => simp at hb
  | cons u rest ih =>
    have h1 := hinst u (List.mem_cons_self _ _)
    cases hd : dynCastBitCastInst u with
    | some a => exact ⟨a, by simp [findBitCastUse, h1, hd]⟩
    | none =>
      simp only [findBitCastUse, h1, hd, if_true]
      rcases List.mem_cons.mp hb with rfl | hb
      · simp [dynCastBitCastInst] at hd
      · exact ih (fun x hx => hinst x (List.mem_cons_of_mem _ hx)) hb

theorem hasOneUse_iff (ir : IR) (CI : Addr) :
    hasOneUse ir CI = true ↔ ∃ u, (ir.call CI).uses = [u] := by
  simp [hasOneUse, List.length_eq_one]

theorem getMallocType_ok_isMalloc (ir : IR) (CI : Addr) (r : Option PointerType)
    (h : getMallocType ir CI = Except.ok r) : isMalloc ir (Value.callInst CI) = true := by
  unfold getMallocType at h
  by_contra hm
  simp [hm] at h

/-- The three outcomes of `getMallocType` on a recognised call, by the result
of the scan. -/
theorem getMallocType_of_isMalloc (ir : IR) (CI : Addr)
    (hm : isMalloc ir (Value.callInst CI) = true) :
    getMallocType ir CI =
      match findBitCastUse (ir.call CI).uses with
      | Except.error f => Except.error f
      | Except.ok (some BCI) =>
        if hasOneUse ir CI then
          match castPointerType (ir.bitcast BCI).destTy with
          | Except.ok PT => Except.ok (some PT)
          | Except.error f => Except.error f
        else Except.ok none
      | Except.ok none =>
        match castPointerType (ir.call CI).ty with
        | Except.ok PT => Except.ok (some PT)
        | Except.error f => Except.error f := by
  unfold getMallocType
  simp [hm]

theorem getMallocType_single_bitcast (ir : IR) (CI b : Addr) (T : Ty)
    (hm : isMalloc ir (Value.callInst CI) = true)
    (huse : (ir.call CI).uses = [Value.bitCastInst b])
    (hdest : (ir.bitcast b).destTy = Ty.ptr T) :
    getMallocType ir CI = Except.ok (some ⟨T⟩) := by
  rw [getMallocType_of_isMalloc ir CI hm]
  simp [huse, findBitCastUse, isInstruction, dynCastBitCastInst, hasOneUse, hdest,
    castPointerType]

theorem getMallocType_no_bitcast (ir : IR) (CI : Addr) (e : Ty)
    (hm : isMalloc ir (Value.callInst CI) = true)
    (hinst : UsesAreInstructions ir CI) (hno : NoBitCastUse ir CI)
    (hty : (ir.call CI).ty = Ty.ptr e) :
    getMallocType ir CI = Except.ok (some ⟨e⟩) := by
  rw [getMallocType_of_isMalloc ir CI hm, findBitCastUse_none_of _ hinst hno]
  simp [hty, castPointerType]

theorem getMallocType_bitcast_and_more (ir : IR) (CI b : Addr)
    (hm : isMalloc ir (Value.callInst CI) = true)
    (hinst : UsesAreInstructions ir CI)
    (hb : Value.bitCastInst b ∈ (ir.call CI).uses)
    (hlen : 2 ≤ (ir.call CI).uses.length) :
    getMallocType ir CI = Except.ok none := by
  obtain ⟨b2, hf⟩ := findBitCastUse_some_of _ hinst b hb
  rw [getMallocType_of_isMalloc ir CI hm, hf]
  have : hasOneUse ir CI = false := by
    simp only [hasOneUse, beq_eq_false_iff_ne, ne_eq]
    omega
  simp [this]

/-- When `getMallocType` returns a type, either no user is a bitcast and the
type is the raw result type, or the only user is a bitcast and the type is its
destination type. -/
theorem getMallocType_some_inv (ir : IR) (CI : Addr) (PT : PointerType)
    (h : getMallocType ir CI = Except.ok (some PT)) :
    (NoBitCastUse ir CI ∧ (ir.call CI).ty = PT.toTy) ∨
      (∃ b, (ir.call CI).uses = [Value.bitCastInst b] ∧ (ir.bitcast b).destTy = PT.toTy) := by
  have hm := getMallocType_ok_isMalloc ir CI _ h
  rw [getMallocType_of_isMalloc ir CI hm] at h
  cases hf : findBitCastUse (ir.call CI).uses with
  | error f => simp [hf] at h
  | ok o =>
    cases o with
    | none =>
      left
      simp only [hf] at h
      refine ⟨fun u hu => (findBitCastUse_none_inv _ hf u hu).2, ?_⟩
      cases hc : castPointerType (ir.call CI).ty with
      | error f => simp [hc] at h
      | ok P =>
        simp only [hc, Except.ok.injEq, Option.some.injEq] at h
        subst h
        exact (castPointerType_ok_iff _ _).mp hc
    | some b =>
      right
      simp only [hf] at h
      cases ho : hasOneUse ir CI with
      | false => simp [ho] at h
      | true =>
        simp only [ho, if_true] at h
        obtain ⟨u, hu⟩ := (hasOneUse_iff ir CI).mp ho
        have hmem := findBitCastUse_some_mem _ b hf
        rw [hu, List.mem_singleton] at hmem
        refine ⟨b, by rw [hu, hmem], ?_⟩
        cases hc : castPointerType (ir.bitcast b).destTy with
        | error f => simp [hc] at h
        | ok P =>
          simp only [hc, Except.ok.injEq, Option.some.injEq] at h
          subst h
          exact (castPointerType_ok_iff _ _).mp hc

/-! ## C2 -/

/-- C2, counterexample: the sentence "returns the raw result type of the call
if and only if the call has zero uses or none of its uses is a bitcast" fails
in both directions.  In the example program `call 8` is a recognised malloc
call whose only use is a bitcast to `i8*`: `getMallocType` returns the
destination type of the bitcast, which is the raw result type `i8*`, although
the call has a bitcast use.  And `call 9` is a recognised malloc call without
uses whose result type `i32` is not a pointer type: the checked downcast fails
and no type is returned. -/
theorem getMallocType_raw_type_counterexample :
    (isMalloc exIR (Value.callInst 8) = true ∧ UsesAreInstructions exIR 8 ∧
      getMallocType exIR 8 = Except.ok (some ⟨Ty.int 8⟩) ∧
      ReturnsRawType exIR 8 ∧
      ¬ ((exIR.call 8).uses = [] ∨ NoBitCastUse exIR 8)) ∧
    (isMalloc exIR (Value.callInst 9) = true ∧ UsesAreInstructions exIR 9 ∧
      (exIR.call 9).uses = [] ∧
      getMallocType exIR 9 = Except.error Fault.castPointerType ∧
      ¬ ReturnsRawType exIR 9) := by
  refine ⟨⟨by decide, by decide, rfl, ⟨⟨Ty.int 8⟩, rfl, rfl⟩, ?_⟩,
    ⟨by decide, by decide, rfl, rfl, ?_⟩⟩
  · rintro (h | h)
    · exact absurd h (by decide)
    · have := h (Value.bitCastInst 8) (by decide)
      simp [dynCastBitCastInst] at this
  · rintro ⟨PT, h, _⟩
    have h2 : getMallocType exIR 9 = Except.error Fault.castPointerType := rfl
    rw [h2] at h
    cases h

/-- C2, amended: for a recognised malloc call all of whose uses are
instructions, whose result type is a pointer type and whose bitcast uses cast
to pointer types, `getMallocType`
* returns the destination type of a bitcast use if and only if the call has
  exactly one use and that use is a bitcast;
* returns the raw result type of the call whenever the call has zero uses or
  none of its uses is a bitcast, and when it returns the raw result type then
  no use is a bitcast or the single use is a bitcast to that same type;
* returns null whenever a bitcast use coexists with another use. -/
theorem getMallocType_by_uses (ir : IR) (CI : Addr)
    (hm : isMalloc ir (Value.callInst CI) = true)
    (hinst : UsesAreInstructions ir CI)
    (hty : ∃ e, (ir.call CI).ty = Ty.ptr e)
    (hdest : ∀ b, Value.bitCastInst b ∈ (ir.call CI).uses →
      ∃ e, (ir.bitcast b).destTy = Ty.ptr e) :
    (ReturnsBitCastType ir CI ↔ ∃ b, (ir.call CI).uses = [Value.bitCastInst b]) ∧
    (((ir.call CI).uses = [] ∨ NoBitCastUse ir CI) → ReturnsRawType ir CI) ∧
    (ReturnsRawType ir CI →
      NoBitCastUse ir CI ∨
        ∃ b, (ir.call CI).uses = [Value.bitCastInst b] ∧
          (ir.bitcast b).destTy = (ir.call CI).ty) ∧
    (∀ b, Value.bitCastInst b ∈ (ir.call CI).uses → 2 ≤ (ir.call CI).uses.length →
      getMallocType ir CI = Except.ok none) := by
  refine ⟨⟨?_, ?_⟩, ?_, ?_, ?_⟩
  · rintro ⟨b, hb, PT, hr, _⟩
    rcases getMallocType_some_inv ir CI PT hr with ⟨hno, _⟩ | ⟨b2, hu, _⟩
    · have := hno _ hb
      simp [dynCastBitCastInst] at this
    · exact ⟨b2, hu⟩
  · rintro ⟨b, hu⟩
    obtain ⟨e, he⟩ := hdest b (by rw [hu]; exact List.mem_singleton_self _)
    exact ⟨b, by rw [hu]; exact List.mem_singleton_self _, ⟨e⟩,
      getMallocType_single_bitcast ir CI b e hm hu he, he.symm⟩
  · intro h
    have hno : NoBitCastUse ir CI := by
      rcases h with h | h
      · intro u hu
        rw [h] at hu
        cases hu
      · exact h
    obtain ⟨e, he⟩ := hty
    exact ⟨⟨e⟩, getMallocType_no_bitcast ir CI e hm hinst hno he, he.symm⟩
  · rintro ⟨PT, hr, hPT⟩
    rcases getMallocType_some_inv ir CI PT hr with ⟨hno, _⟩ | ⟨b2, hu, hd⟩
    · exact Or.inl hno
    · exact Or.inr ⟨b2, hu, by rw [hd, hPT]⟩
  · intro b hb hlen
    exact getMallocType_bitcast_and_more ir CI b hm hinst hb hlen

/-- C2, witness: `call 0` of the example program, whose only use is a bitcast
to `i32*`. -/
theorem getMallocType_by_uses_witness :
    isMalloc exIR (Value.callInst 0) = true ∧ UsesAreInstructions exIR 0 ∧
      (∃ e, (exIR.call 0).ty = Ty.ptr e) ∧
      (∀ b, Value.bitCastInst b ∈ (exIR.call 0).uses →
        ∃ e, (exIR.bitcast b).destTy = Ty.ptr e) ∧
      ReturnsBitCastType exIR 0 :=
  have h1 : isMalloc exIR (Value.callInst 0) = true := by decide
  have h2 : UsesAreInstructions exIR 0 := by decide
  have h3 : ∃ e, (exIR.call 0).ty = Ty.ptr e := ⟨Ty.int 8, rfl⟩
  have h4 : ∀ b, Value.bitCastInst b ∈ (exIR.call 0).uses →
      ∃ e, (exIR.bitcast b).destTy = Ty.ptr e := by
    intro b hb
    have hb0 : b = 0 := by simpa [exIR] using hb
    subst hb0
    exact ⟨Ty.int 32, rfl⟩
  ⟨h1, h2, h3, h4, (getMallocType_by_uses exIR 0 h1 h2 h3 h4).1.mpr ⟨0, rfl⟩⟩

/-! ## C3 -/

/-- C3, counterexample: `call 7` of the example program is a recognised malloc
call with two uses, neither of them a bitcast, and `getMallocType` returns the
raw result type `i8*` rather than null. -/
theorem getMallocType_two_uses_counterexample :
    isMalloc exIR (Value.callInst 7) = true ∧
      (exIR.call 7).uses.length = 2 ∧
      getMallocType exIR 7 = Except.ok (some ⟨Ty.int 8⟩) ∧
      getMallocType exIR 7 ≠ Except.ok none := by
  refine ⟨by decide, rfl, rfl, ?_⟩
  intro h
  have h2 : getMallocType exIR 7 = Except.ok (some ⟨Ty.int 8⟩) := rfl
  rw [h2] at h
  cases h

/-- C3, amended: for every recognised malloc call, if the uses are
instructions, there are two or more of them and at least one is a bitcast,
then `getMallocType` returns null; and when `getMallocType` returns a type,
either none of the uses is a bitcast (whatever their number) and the type is
the raw result type of the call, or the call has exactly one use, that use is
a bitcast, and the type is the destination type of the bitcast. -/
theorem getMallocType_indeterminate (ir : IR) (CI : Addr)
    (hm : isMalloc ir (Value.callInst CI) = true) :
    (UsesAreInstructions ir CI → 2 ≤ (ir.call CI).uses.length →
      (∃ b, Value.bitCastInst b ∈ (ir.call CI).uses) →
      getMallocType ir CI = Except.ok none) ∧
    (∀ PT, getMallocType ir CI = Except.ok (some PT) →
      (NoBitCastUse ir CI ∧ (ir.call CI).ty = PT.toTy) ∨
        ∃ b, (ir.call CI).uses = [Value.bitCastInst b] ∧
          (ir.bitcast b).destTy = PT.toTy) := by
  refine ⟨?_, ?_⟩
  · rintro hinst hlen ⟨b, hb⟩
    exact getMallocType_bitcast_and_more ir CI b hm hinst hb hlen
  · intro PT hr
    exact getMallocType_some_inv ir CI PT hr

/-- C3, witness: `call 2` of the example program has a bitcast use and one
other use, and its type is indeterminate; `call 7` has two uses, neither of
them a bitcast, and its type is the raw result type `i8*`. -/
theorem getMallocType_indeterminate_witness :
    (isMalloc exIR (Value.callInst 2) = true ∧
      getMallocType exIR 2 = Except.ok none) ∧
    (isMalloc exIR (Value.callInst 7) = true ∧
      getMallocType exIR 7 = Except.ok (some ⟨Ty.int 8⟩) ∧
      ((NoBitCastUse exIR 7 ∧ (exIR.call 7).ty = Ty.ptr (Ty.int 8)) ∨
        ∃ b, (exIR.call 7).uses = [Value.bitCastInst b] ∧
          (exIR.bitcast b).destTy = Ty.ptr (Ty.int 8))) :=
  have h1 : isMalloc exIR (Value.callInst 2) = true := by decide
  have h2 : isMalloc exIR (Value.callInst 7) = true := by decide
  ⟨⟨h1, (getMallocType_indeterminate exIR 2 h1).1 (by decide) (by decide)
      ⟨2, by decide⟩⟩,
    ⟨h2, rfl, (getMallocType_indeterminate exIR 7 h2).2 ⟨Ty.int 8⟩ rfl⟩⟩

/-! ## Array classification -/

theorem getMallocAllocatedType_ok_isMalloc (ir : IR) (CI : Addr) (r : Option Ty)
    (h : getMallocAllocatedType ir CI = Except.ok r) :
    isMalloc ir (Value.callInst CI) = true := by
  unfold getMallocAllocatedType at h
  cases hg : getMallocType ir CI with
  | error f => simp [hg] at h
  | ok PT => exact getMallocType_ok_isMalloc ir CI PT hg

theorem extractMallocCall_of_isMalloc (ir : IR) (CI : Addr)
    (hm : isMalloc ir (Value.callInst CI) = true) :
    extractMallocCall ir (Value.callInst CI) = some CI := by
  rw [isMalloc_callInst] at hm
  rw [extractMallocCall_callInst, hm]
  rfl

theorem getMallocAllocatedType_single_bitcast (ir : IR) (CI b : Addr) (T : Ty)
    (hm : isMalloc ir (Value.callInst CI) = true)
    (huse : (ir.call CI).uses = [Value.bitCastInst b])
    (hdest : (ir.bitcast b).destTy = Ty.ptr T) :
    getMallocAllocatedType ir CI = Except.ok (some T) := by
  unfold getMallocAllocatedType
  rw [getMallocType_single_bitcast ir CI b T hm huse hdest]
  rfl

theorem isConstantOne_of_isConstantExpr (v : Value) (h : isConstantExpr v = true) :
    isConstantOne v = false := by
  cases v <;> first | rfl | simp [isConstantExpr] at h

/-- The classification of a call whose element type is `T` and whose size
argument is `MallocArg`, by the shape of the size argument. -/
theorem isArrayMalloc_eq (L : Lib) (ir : IR) (CI : Addr) (T : Ty) (MallocArg : Value)
    (hT : getMallocAllocatedType ir CI = Except.ok (some T))
    (harg : getOperand ir (Value.callInst CI) 1 = Except.ok MallocArg)
    (hES : isConstantExpr (elementSize L ir T MallocArg) = true) :
    isArrayMalloc L ir (Value.callInst CI) =
      Except.ok
        (if isConstantExpr MallocArg = true then
          (if MallocArg ≠ elementSize L ir T MallocArg then some CI else none)
        else
          match dynCastBinaryOperator MallocArg with
          | none => none
          | some BI =>
            if (ir.binop BI).opcode = BinaryOps.Mul ∧
                ((ir.binop BI).rhs = elementSize L ir T MallocArg ∨
                  L.fold (elementSize L ir T MallocArg) = some (ir.binop BI).rhs) then
              some CI
            else none) := by
  have hm := getMallocAllocatedType_ok_isMalloc ir CI _ hT
  unfold elementSize at hES
  unfold isArrayMalloc
  rw [extractMallocCall_of_isMalloc ir CI hm]
  unfold isArrayMallocHelper elementSize
  simp only [hT, harg, hES, if_true]
  by_cases hce : isConstantExpr MallocArg = true
  · simp only [hce, if_true]
    by_cases hne : MallocArg = L.getTruncOrBitCast (L.getSizeOf T) (getType ir MallocArg)
    · simp [← hne]
    · simp [hne]
  · simp only [hce]
    cases hbo : dynCastBinaryOperator MallocArg with
    | none => simp
    | some BI =>
      simp only [Bool.false_eq_true, if_false]
      by_cases hc : (ir.binop BI).opcode = BinaryOps.Mul ∧
          ((ir.binop BI).rhs = L.getTruncOrBitCast (L.getSizeOf T) (getType ir MallocArg) ∨
            L.fold (L.getTruncOrBitCast (L.getSizeOf T) (getType ir MallocArg)) =
              some (ir.binop BI).rhs)
      · have hc2 : (ir.binop BI).opcode = BinaryOps.Mul ∧
            ((ir.binop BI).rhs = L.getTruncOrBitCast (L.getSizeOf T) (getType ir MallocArg) ∨
              ((L.fold (L.getTruncOrBitCast (L.getSizeOf T)
                  (getType ir MallocArg))).isSome = true ∧
                some (ir.binop BI).rhs =
                  L.fold (L.getTruncOrBitCast (L.getSizeOf T) (getType ir MallocArg)))) := by
          refine ⟨hc.1, ?_⟩
          rcases hc.2 with h | h
          · exact Or.inl h
          · exact Or.inr ⟨by rw [h]; rfl, h.symm⟩
        rw [if_pos hc2, if_pos hc]
        rfl
      · have hc2 : ¬ ((ir.binop BI).opcode = BinaryOps.Mul ∧
            ((ir.binop BI).rhs = L.getTruncOrBitCast (L.getSizeOf T) (getType ir MallocArg) ∨
              ((L.fold (L.getTruncOrBitCast (L.getSizeOf T)
                  (getType ir MallocArg))).isSome = true ∧
                some (ir.binop BI).rhs =
                  L.fold (L.getTruncOrBitCast (L.getSizeOf T) (getType ir MallocArg))))) := by
          rintro ⟨h1, h2⟩
          apply hc
          refine ⟨h1, ?_⟩
          rcases h2 with h | ⟨_, h⟩
          · exact Or.inl h
          · exact Or.inr h.symm
        rw [if_neg hc2, if_neg hc]
        rfl

theorem getMallocArraySize_of_not_array (L : Lib) (ir : IR) (CI : Addr) (MallocArg : Value)
    (harg : getOperand ir (Value.callInst CI) 1 = Except.ok MallocArg)
    (h : isArrayMalloc L ir (Value.callInst CI) = Except.ok none) :
    getMallocArraySize L ir CI = ConstantInt.get (getType ir MallocArg) 1 := by
  unfold getMallocArraySize
  simp only [h, harg]

theorem ConstantInt_get_int (w v : Nat) :
    ConstantInt.get (Ty.int w) v = Except.ok (Value.constantInt (Ty.int w) v) := rfl

theorem ConstantInt_get_not_int (ty : Ty) (v : Nat) (h : ∀ w, ty ≠ Ty.int w) :
    ConstantInt.get ty v = Except.error Fault.castIntegerType := by
  cases ty with
  | int w => exact absurd rfl (h w)
  | ptr e => rfl
  | other t => rfl

theorem getMallocArraySize_of_mul (L : Lib) (ir : IR) (CI c m : Addr) (T : Ty)
    (hT : getMallocAllocatedType ir CI = Except.ok (some T))
    (harg : getOperand ir (Value.callInst CI) 1 = Except.ok (Value.binaryOperator m))
    (hES : isConstantExpr (elementSize L ir T (Value.binaryOperator m)) = true)
    (h : isArrayMalloc L ir (Value.callInst CI) = Except.ok (some c)) :
    getMallocArraySize L ir CI = Except.ok (ir.binop m).lhs := by
  have h1 := isConstantOne_of_isConstantExpr _ hES
  unfold elementSize at h1
  unfold getMallocArraySize
  simp only [h, harg, hT, h1, dynCastConstant, isConstant, dynCastBinaryOperator]
  simp

/-! ## C4 -/

/-- C4: round trip for array allocations.  For every element type `T` and
every count value `N`, a recognised malloc call whose size argument is a
multiply instruction with left operand `N` and right operand `R`, where `R` is
the element-size constant of `T` coerced to the type of the size argument or
what the folder returns for it, and whose only use is a bitcast to `T*`, is
array-classified (`isArrayMalloc` returns the call) and `getMallocArraySize`
returns `N`.  The element-size constant is a constant expression, as the
constant factory builds it. -/
theorem array_malloc_round_trip (L : Lib) (ir : IR) (CI b m : Addr) (T : Ty) (N R : Value)
    (hm : isMalloc ir (Value.callInst CI) = true)
    (huse : (ir.call CI).uses = [Value.bitCastInst b])
    (hdest : (ir.bitcast b).destTy = Ty.ptr T)
    (harg : getOperand ir (Value.callInst CI) 1 = Except.ok (Value.binaryOperator m))
    (hop : (ir.binop m).opcode = BinaryOps.Mul)
    (hl : (ir.binop m).lhs = N)
    (hr : (ir.binop m).rhs = R)
    (hES : isConstantExpr (elementSize L ir T (Value.binaryOperator m)) = true)
    (hR : R = elementSize L ir T (Value.binaryOperator m) ∨
      L.fold (elementSize L ir T (Value.binaryOperator m)) = some R) :
    isArrayMalloc L ir (Value.callInst CI) = Except.ok (some CI) ∧
      getMallocArraySize L ir CI = Except.ok N := by
  have hT := getMallocAllocatedType_single_bitcast ir CI b T hm huse hdest
  have hA : isArrayMalloc L ir (Value.callInst CI) = Except.ok (some CI) := by
    rw [isArrayMalloc_eq L ir CI T _ hT harg hES]
    have hc : (ir.binop m).opcode = BinaryOps.Mul ∧
        ((ir.binop m).rhs = elementSize L ir T (Value.binaryOperator m) ∨
          L.fold (elementSize L ir T (Value.binaryOperator m)) = some (ir.binop m).rhs) :=
      ⟨hop, by rw [hr]; exact hR⟩
    simp only [isConstantExpr, dynCastBinaryOperator, Bool.false_eq_true, if_false]
    rw [if_pos hc]
  refine ⟨hA, ?_⟩
  rw [getMallocArraySize_of_mul L ir CI CI m T hT harg hES hA, hl]

/-- C4, witness: `call 0` of the example program, `malloc(mul i32 10, 4)` with a
single bitcast to `i32*`, is an array allocation of 10 elements. -/
theorem array_malloc_round_trip_witness :
    isMalloc exIR (Value.callInst 0) = true ∧
      (exIR.call 0).uses = [Value.bitCastInst 0] ∧
      (exIR.bitcast 0).destTy = Ty.ptr (Ty.int 32) ∧
      getOperand exIR (Value.callInst 0) 1 = Except.ok (Value.binaryOperator 0) ∧
      (exIR.binop 0).opcode = BinaryOps.Mul ∧
      (exIR.binop 0).lhs = Value.constantInt i32 10 ∧
      (exIR.binop 0).rhs = Value.constantInt i32 4 ∧
      isConstantExpr (elementSize exLib exIR (Ty.int 32) (Value.binaryOperator 0)) = true ∧
      exLib.fold (elementSize exLib exIR (Ty.int 32) (Value.binaryOperator 0)) =
        some (Value.constantInt i32 4) ∧
      isArrayMalloc exLib exIR (Value.callInst 0) = Except.ok (some 0) ∧
      getMallocArraySize exLib exIR 0 = Except.ok (Value.constantInt i32 10) :=
  ⟨by decide, rfl, rfl, rfl, rfl, rfl, rfl, rfl, rfl,
    array_malloc_round_trip exLib exIR 0 0 0 (Ty.int 32) (Value.constantInt i32 10)
      (Value.constantInt i32 4) (by decide) rfl rfl rfl rfl rfl rfl rfl (Or.inr rfl)⟩

/-! ## C5 -/

/-- C6: when the allocated element type of a call is indeterminate
(`getMallocAllocatedType` returns null), `isArrayMalloc` returns null, whatever
the size argument is. -/
theorem isArrayMalloc_indeterminate_type (L : Lib) (ir : IR) (CI : Addr)
    (hT : getMallocAllocatedType ir CI = Except.ok none) :
    isArrayMalloc L ir (Value.callInst CI) = Except.ok none := by
  have hm := getMallocAllocatedType_ok_isMalloc ir CI _ hT
  unfold isArrayMalloc
  rw [extractMallocCall_of_isMalloc ir CI hm]
  unfold isArrayMallocHelper
  simp [hT]

/-- C6, witness: `call 2` of the example program has a bitcast use to `i32*`
and one other use; its size argument is the multiplication `10 * 4` by the
folded element size, and it is not array-classified. -/
theorem isArrayMalloc_indeterminate_type_witness :
    getMallocAllocatedType exIR 2 = Except.ok none ∧
      getOperand exIR (Value.callInst 2) 1 = Except.ok (Value.binaryOperator 0) ∧
      isArrayMalloc exLib exIR (Value.callInst 2) = Except.ok none :=
  ⟨rfl, rfl, isArrayMalloc_indeterminate_type exLib exIR 2 rfl⟩

/-! ## C7 -/

/-- C7, counterexample: two calls of the third example program on which
`isArrayMalloc` returns null and `getMallocArraySize` returns no value.  The
operand 1 of `call 0`, `call void @free(i8* %p)`, has the pointer type `i8*`, so
`ConstantInt::get` aborts in its downcast to an integer type; `call 1` has no
operand 1, so the operand access aborts. -/
theorem getMallocArraySize_not_array_counterexample :
    (isArrayMalloc exLib exIR3 (Value.callInst 0) = Except.ok none ∧
      getOperand exIR3 (Value.callInst 0) 1 = Except.ok (Value.otherValue 0) ∧
      getType exIR3 (Value.otherValue 0) = Ty.ptr (Ty.int 8) ∧
      getMallocArraySize exLib exIR3 0 = Except.error Fault.castIntegerType) ∧
    (isArrayMalloc exLib exIR3 (Value.callInst 1) = Except.ok none ∧
      (exIR3.call 1).args = [] ∧
      getMallocArraySize exLib exIR3 1 = Except.error Fault.operandOutOfRange) := by
  refine ⟨⟨rfl, rfl, rfl, rfl⟩, ⟨rfl, rfl, rfl⟩⟩

/-- C7, amended: for every call that has an operand 1 of an integer type and on
which `isArrayMalloc` returns null, `getMallocArraySize` returns the integer
literal 1 of the type of that operand, whatever the operand is. -/
theorem getMallocArraySize_not_array (L : Lib) (ir : IR) (CI : Addr) (MallocArg : Value)
    (w : Nat)
    (harg : getOperand ir (Value.callInst CI) 1 = Except.ok MallocArg)
    (hint : getType ir MallocArg = Ty.int w)
    (h : isArrayMalloc L ir (Value.callInst CI) = Except.ok none) :
    getMallocArraySize L ir CI =
      Except.ok (Value.constantInt (getType ir MallocArg) 1) := by
  rw [getMallocArraySize_of_not_array L ir CI MallocArg harg h, hint]
  rfl

/-- C7, witness: `call 4` of the example program, `malloc(sizeof(i32))`, is not
array-classified and its count is the literal `i32 1`. -/
theorem getMallocArraySize_not_array_witness :
    getOperand exIR (Value.callInst 4) 1 = Except.ok (Value.constantExpr 11) ∧
      getType exIR (Value.constantExpr 11) = Ty.int 32 ∧
      isArrayMalloc exLib exIR (Value.callInst 4) = Except.ok none ∧
      getMallocArraySize exLib exIR 4 = Except.ok (Value.constantInt i32 1) :=
  ⟨rfl, rfl, rfl,
    getMallocArraySize_not_array exLib exIR 4 (Value.constantExpr 11) 32 rfl rfl rfl⟩

/-! ## C8 -/

/-- C8, counterexample: `call 1` of the second example program is
`malloc(sizeof(float))` with a single bitcast to `i32*`.  Its size argument,
constant expression 12, and the element-size constant of `i32`, constant
expression 11, have the same value (both fold to the literal `i32 4`), yet the
call is array-classified, because the two are different constant
expressions. -/
theorem isArrayMalloc_equal_value_counterexample :
    getMallocAllocatedType exIR2 1 = Except.ok (some (Ty.int 32)) ∧
      getOperand exIR2 (Value.callInst 1) 1 = Except.ok (Value.constantExpr 12) ∧
      elementSize exLib2 exIR2 (Ty.int 32) (Value.constantExpr 12) = Value.constantExpr 11 ∧
      exLib2.fold (Value.constantExpr 12) = some (Value.constantInt i32 4) ∧
      exLib2.fold (elementSize exLib2 exIR2 (Ty.int 32) (Value.constantExpr 12)) =
        some (Value.constantInt i32 4) ∧
      isArrayMalloc exLib2 exIR2 (Value.callInst 1) = Except.ok (some 1) ∧
      ¬ (isArrayMalloc exLib2 exIR2 (Value.callInst 1) = Except.ok (some 1) ↔
        exLib2.fold (Value.constantExpr 12) ≠
          exLib2.fold (elementSize exLib2 exIR2 (Ty.int 32) (Value.constantExpr 12))) := by
  refine ⟨rfl, rfl, rfl, rfl, rfl, rfl, ?_⟩
  intro h
  exact h.mp rfl rfl

/-- C8, amended: for every malloc call with a determinate element type `T`
whose size argument is a constant expression, `isArrayMalloc` classifies the
call as an array if and only if the size argument is not the element-size
constant of `T` itself: the two uniqued constants are compared by identity, not
by value.  A size argument that is the element-size constant is never
array-classified.  The element-size constant is a constant expression, as the
constant factory builds it. -/
theorem isArrayMalloc_constant_expr (L : Lib) (ir : IR) (CI e : Addr) (T : Ty)
    (hT : getMallocAllocatedType ir CI = Except.ok (some T))
    (harg : getOperand ir (Value.callInst CI) 1 = Except.ok (Value.constantExpr e))
    (hES : isConstantExpr (elementSize L ir T (Value.constantExpr e)) = true) :
    (isArrayMalloc L ir (Value.callInst CI) = Except.ok (some CI) ↔
      Value.constantExpr e ≠ elementSize L ir T (Value.constantExpr e)) ∧
    (Value.constantExpr e = elementSize L ir T (Value.constantExpr e) →
      isArrayMalloc L ir (Value.callInst CI) = Except.ok none) := by
  rw [isArrayMalloc_eq L ir CI T _ hT harg hES]
  simp only [isConstantExpr, if_true]
  by_cases h : Value.constantExpr e = elementSize L ir T (Value.constantExpr e)
  · rw [if_neg (not_not.mpr h)]
    exact ⟨⟨fun hx => (by cases hx), fun hx => absurd h hx⟩, fun _ => rfl⟩
  · rw [if_pos h]
    exact ⟨⟨fun _ => h, fun _ => rfl⟩, fun hx => absurd hx h⟩

/-- C8, witness: `call 5` of the example program passes a constant expression
other than the element-size constant and is array-classified. -/
theorem isArrayMalloc_constant_expr_witness :
    getMallocAllocatedType exIR 5 = Except.ok (some (Ty.int 32)) ∧
      getOperand exIR (Value.callInst 5) 1 = Except.ok (Value.constantExpr 13) ∧
      isConstantExpr (elementSize exLib exIR (Ty.int 32) (Value.constantExpr 13)) = true ∧
      isArrayMalloc exLib exIR (Value.callInst 5) = Except.ok (some 5) :=
  ⟨rfl, rfl, rfl,
    (isArrayMalloc_constant_expr exLib exIR 5 13 (Ty.int 32) rfl rfl rfl).1.mpr
      (by decide)⟩

/-! ## C9 -/

theorem setLhs_opcode (ir : IR) (m a : Addr) (v : Value) :
    ((setLhs ir m v).binop a).opcode = (ir.binop a).opcode := by
  unfold setLhs
  dsimp only
  split <;> rfl

theorem setLhs_rhs (ir : IR) (m a : Addr) (v : Value) :
    ((setLhs ir m v).binop a).rhs = (ir.binop a).rhs := by
  unfold setLhs
  dsimp only
  split <;> rfl

theorem setLhs_ty (ir : IR) (m a : Addr) (v : Value) :
    ((setLhs ir m v).binop a).ty = (ir.binop a).ty := by
  unfold setLhs
  dsimp only
  split <;> rfl

theorem getType_setLhs (ir : IR) (m : Addr) (v x : Value) :
    getType (setLhs ir m v) x = getType ir x := by
  cases x <;> first | rfl | exact setLhs_ty ir m _ v

/-- The classification never reads the left operand of a multiply. -/
theorem isArrayMalloc_setLhs (L : Lib) (ir : IR) (m : Addr) (v I : Value) :
    isArrayMalloc L (setLhs ir m v) I = isArrayMalloc L ir I := by
  have hE : extractMallocCall (setLhs ir m v) I = extractMallocCall ir I := rfl
  have hH : ∀ c, isArrayMallocHelper L (setLhs ir m v) c = isArrayMallocHelper L ir c := by
    intro c
    cases c with
    | none => rfl
    | some c =>
      have hT : getMallocAllocatedType (setLhs ir m v) c = getMallocAllocatedType ir c := rfl
      have hO : getOperand (setLhs ir m v) (Value.callInst c) 1 =
          getOperand ir (Value.callInst c) 1 := rfl
      unfold isArrayMallocHelper
      simp only [hT, hO, getType_setLhs, setLhs_opcode, setLhs_rhs]
  unfold isArrayMalloc
  simp only [hE, hH]

/-- C9: for every malloc call with a determinate element type `T` whose size
argument is a multiply instruction, `isArrayMalloc` classifies the call as an
array if and only if the right operand of the multiply is the element-size
constant of `T`, as it is or as the folder returns it; otherwise it returns
null.  The left operand is never compared: replacing it by any value leaves
the result unchanged.  The element-size constant is a constant expression, as
the constant factory builds it. -/
theorem isArrayMalloc_multiply (L : Lib) (ir : IR) (CI m : Addr) (T : Ty)
    (hT : getMallocAllocatedType ir CI = Except.ok (some T))
    (harg : getOperand ir (Value.callInst CI) 1 = Except.ok (Value.binaryOperator m))
    (hop : (ir.binop m).opcode = BinaryOps.Mul)
    (hES : isConstantExpr (elementSize L ir T (Value.binaryOperator m)) = true) :
    (isArrayMalloc L ir (Value.callInst CI) = Except.ok (some CI) ↔
      ((ir.binop m).rhs = elementSize L ir T (Value.binaryOperator m) ∨
        L.fold (elementSize L ir T (Value.binaryOperator m)) = some (ir.binop m).rhs)) ∧
    (¬ ((ir.binop m).rhs = elementSize L ir T (Value.binaryOperator m) ∨
        L.fold (elementSize L ir T (Value.binaryOperator m)) = some (ir.binop m).rhs) →
      isArrayMalloc L ir (Value.callInst CI) = Except.ok none) ∧
    (∀ v, isArrayMalloc L (setLhs ir m v) (Value.callInst CI) =
      isArrayMalloc L ir (Value.callInst CI)) := by
  refine ⟨?_, ?_, fun v => isArrayMalloc_setLhs L ir m v _⟩
  · rw [isArrayMalloc_eq L ir CI T _ hT harg hES]
    simp only [isConstantExpr, dynCastBinaryOperator, Bool.false_eq_true, if_false]
    by_cases h : (ir.binop m).rhs = elementSize L ir T (Value.binaryOperator m) ∨
        L.fold (elementSize L ir T (Value.binaryOperator m)) = some (ir.binop m).rhs
    · rw [if_pos ⟨hop, h⟩]
      exact ⟨fun _ => h, fun _ => rfl⟩
    · rw [if_neg (fun hc => h hc.2)]
      exact ⟨fun hx => (by cases hx), fun hx => absurd hx h⟩
  · intro h
    rw [isArrayMalloc_eq L ir CI T _ hT harg hES]
    simp only [isConstantExpr, dynCastBinaryOperator, Bool.false_eq_true, if_false]
    rw [if_neg (fun hc => h hc.2)]

/-- C9, witness: `call 0` of the example program multiplies by the literal 4,
which is what the element-size constant of `i32` folds to. -/
theorem isArrayMalloc_multiply_witness :
    getMallocAllocatedType exIR 0 = Except.ok (some (Ty.int 32)) ∧
      getOperand exIR (Value.callInst 0) 1 = Except.ok (Value.binaryOperator 0) ∧
      (exIR.binop 0).opcode = BinaryOps.Mul ∧
      isConstantExpr (elementSize exLib exIR (Ty.int 32) (Value.binaryOperator 0)) = true ∧
      isArrayMalloc exLib exIR (Value.callInst 0) = Except.ok (some 0) :=
  ⟨rfl, rfl, rfl, rfl,
    (isArrayMalloc_multiply exLib exIR 0 0 (Ty.int 32) rfl rfl rfl rfl).1.mpr
      (Or.inr rfl)⟩

/-! ## C10 -/

theorem extractMallocCall_some_inv (ir : IR) (I : Value) (c : Addr)
    (h : extractMallocCall ir I = some c) :
    I = Value.callInst c ∧ isMalloc ir (Value.callInst c) = true := by
  cases I with
  | callInst a =>
    rw [extractMallocCall_callInst] at h
    by_cases hm : isMallocCall ir (some a) = true
    · rw [if_pos hm, Option.some.injEq] at h
      subst h
      exact ⟨rfl, by rw [isMalloc_callInst]; exact hm⟩
    · rw [if_neg hm] at h
      cases h
  | _ => simp [extractMallocCall, dynCastCallInst, isMallocCall] at h

theorem isArrayMallocHelper_true_inv (L : Lib) (ir : IR) (c : Addr)
    (h : isArrayMallocHelper L ir (some c) = Except.ok true) :
    ∃ T MallocArg, getMallocAllocatedType ir c = Except.ok (some T) ∧
      getOperand ir (Value.callInst c) 1 = Except.ok MallocArg ∧
      isConstantExpr (elementSize L ir T MallocArg) = true := by
  unfold isArrayMallocHelper at h
  cases hT : getMallocAllocatedType ir c with
  | error f => simp [hT] at h
  | ok o =>
    cases o with
    | none => simp [hT] at h
    | some T =>
      cases hO : getOperand ir (Value.callInst c) 1 with
      | error f => simp [hT, hO] at h
      | ok MallocArg =>
        refine ⟨T, MallocArg, rfl, rfl, ?_⟩
        by_contra hES
        unfold elementSize at hES
        simp [hT, hO, hES] at h

/-- An array-classified value is the call itself, and the call has a
determinate element type and a size argument. -/
theorem isArrayMalloc_some_inv (L : Lib) (ir : IR) (I : Value) (CI : Addr)
    (h : isArrayMalloc L ir I = Except.ok (some CI)) :
    I = Value.callInst CI ∧
      ∃ T MallocArg, getMallocAllocatedType ir CI = Except.ok (some T) ∧
        getOperand ir (Value.callInst CI) 1 = Except.ok MallocArg ∧
        isConstantExpr (elementSize L ir T MallocArg) = true := by
  unfold isArrayMalloc at h
  cases hH : isArrayMallocHelper L ir (extractMallocCall ir I) with
  | error f => simp [hH] at h
  | ok b =>
    cases b with
    | false => simp [hH] at h
    | true =>
      simp only [hH, if_true, Except.ok.injEq] at h
      obtain ⟨hI, _⟩ := extractMallocCall_some_inv ir I CI h
      rw [h] at hH
      exact ⟨hI, isArrayMallocHelper_true_inv L ir CI hH⟩

theorem isArrayMalloc_indeterminate_type_aux (L : Lib) (ir : IR) (CI : Addr)
    (hT : getMallocAllocatedType ir CI = Except.ok none) :
    isArrayMalloc L ir (Value.callInst CI) = Except.ok none := by
  have hm := getMallocAllocatedType_ok_isMalloc ir CI _ hT
  unfold isArrayMalloc
  rw [extractMallocCall_of_isMalloc ir CI hm]
  unfold isArrayMallocHelper
  simp [hT]

theorem getMallocArraySize_of_constant_expr (L : Lib) (ir : IR) (CI c e : Addr) (T : Ty)
    (hT : getMallocAllocatedType ir CI = Except.ok (some T))
    (harg : getOperand ir (Value.callInst CI) 1 = Except.ok (Value.constantExpr e))
    (hES : isConstantExpr (elementSize L ir T (Value.constantExpr e)) = true)
    (h : isArrayMalloc L ir (Value.callInst CI) = Except.ok (some c)) :
    getMallocArraySize L ir CI = getOperand ir (Value.constantExpr e) 0 := by
  have h1 := isConstantOne_of_isConstantExpr _ hES
  unfold elementSize at h1
  unfold getMallocArraySize
  simp only [h, harg, hT, h1, dynCastConstant, isConstant, dynCastBinaryOperator]
  simp

/-- An array-classified call has a determinate element type and its size
argument is a constant expression or a binary operator. -/
theorem isArrayMalloc_some_arg_inv (L : Lib) (ir : IR) (CI c : Addr)
    (h : isArrayMalloc L ir (Value.callInst CI) = Except.ok (some c)) :
    ∃ T MallocArg, getMallocAllocatedType ir CI = Except.ok (some T) ∧
      getOperand ir (Value.callInst CI) 1 = Except.ok MallocArg ∧
      isConstantExpr (elementSize L ir T MallocArg) = true ∧
      ((∃ e, MallocArg = Value.constantExpr e) ∨ (∃ m, MallocArg = Value.binaryOperator m)) := by
  obtain ⟨hI, T, MallocArg, hT, harg, hES⟩ := isArrayMalloc_some_inv L ir _ c h
  cases hI
  refine ⟨T, MallocArg, hT, harg, hES, ?_⟩
  rw [isArrayMalloc_eq L ir CI T _ hT harg hES] at h
  cases MallocArg with
  | constantExpr e => exact Or.inl ⟨e, rfl⟩
  | binaryOperator m => exact Or.inr ⟨m, rfl⟩
  | _ => simp [isConstantExpr, dynCastBinaryOperator] at h

/-- On an array-classified call `getMallocArraySize` gives operand 0 of the
size argument: operand 0 of the constant expression or the left operand of the
binary operator.  The test `isConstantOne(ElementSize)` never succeeds there,
because the element-size constant passed the `cast<ConstantExpr>` of
`isArrayMallocHelper`. -/
theorem getMallocArraySize_of_array (L : Lib) (ir : IR) (CI c : Addr)
    (h : isArrayMalloc L ir (Value.callInst CI) = Except.ok (some c)) :
    ∃ T MallocArg, getMallocAllocatedType ir CI = Except.ok (some T) ∧
      getOperand ir (Value.callInst CI) 1 = Except.ok MallocArg ∧
      isConstantOne (elementSize L ir T MallocArg) = false ∧
      ((∃ e, MallocArg = Value.constantExpr e) ∨ (∃ m, MallocArg = Value.binaryOperator m)) ∧
      getMallocArraySize L ir CI = getOperand ir MallocArg 0 := by
  obtain ⟨T, MallocArg, hT, harg, hES, hshape⟩ := isArrayMalloc_some_arg_inv L ir CI c h
  refine ⟨T, MallocArg, hT, harg, isConstantOne_of_isConstantExpr _ hES, hshape, ?_⟩
  rcases hshape with ⟨e, rfl⟩ | ⟨m, rfl⟩
  · exact getMallocArraySize_of_constant_expr L ir CI c e T hT harg hES h
  · rw [getMallocArraySize_of_mul L ir CI c m T hT harg hES h]
    rfl

/-! ## C11 -/

/-- C11, the code at the failing input: in the second example program `call 0`
is `malloc(mul i32 %n, 1)` with element type `i8`; the element-size constant
folds to the literal 1 and the call is array-classified, yet
`getMallocArraySize` returns the left operand `%n` of the multiplication and
not the size argument itself. -/
theorem getMallocArraySize_byte_element_evaluation :
    isArrayMalloc exLib2 exIR2 (Value.callInst 0) = Except.ok (some 0) ∧
      getMallocAllocatedType exIR2 0 = Except.ok (some (Ty.int 8)) ∧
      getOperand exIR2 (Value.callInst 0) 1 = Except.ok (Value.binaryOperator 0) ∧
      exLib2.fold (elementSize exLib2 exIR2 (Ty.int 8) (Value.binaryOperator 0)) =
        some (Value.constantInt i32 1) ∧
      isConstantOne (elementSize exLib2 exIR2 (Ty.int 8) (Value.binaryOperator 0)) = false ∧
      getMallocArraySize exLib2 exIR2 0 = Except.ok (Value.otherValue 0) ∧
      getMallocArraySize exLib2 exIR2 0 ≠ Except.ok (Value.binaryOperator 0) := by
  refine ⟨rfl, rfl, rfl, rfl, rfl, rfl, ?_⟩
  intro h
  have h2 : getMallocArraySize exLib2 exIR2 0 = Except.ok (Value.otherValue 0) := rfl
  rw [h2] at h
  cases h

/-! ## C12 -/

/-- C12, the code at the failing input: in the second example program `call 1`
is `malloc(sizeof(float))` with the size argument of type `i32` and a single
bitcast to `i32*`.  The size argument is a constant expression other than the
element-size constant of `i32`, so the call is array-classified, and
`getMallocArraySize` returns operand 0 of that constant expression: the
address `getelementptr (float* null, i32 1)`, whose type is `float*` and not
`i32`. -/
theorem getMallocArraySize_type_evaluation :
    isMalloc exIR2 (Value.callInst 1) = true ∧
      (exIR2.call 1).uses = [Value.bitCastInst 1] ∧
      getOperand exIR2 (Value.callInst 1) 1 = Except.ok (Value.constantExpr 12) ∧
      getType exIR2 (Value.constantExpr 12) = Ty.int 32 ∧
      isArrayMalloc exLib2 exIR2 (Value.callInst 1) = Except.ok (some 1) ∧
      getMallocArraySize exLib2 exIR2 1 = Except.ok (Value.constantExpr 30) ∧
      getType exIR2 (Value.constantExpr 30) = Ty.ptr floatTy ∧
      getType exIR2 (Value.constantExpr 30) ≠ getType exIR2 (Value.constantExpr 12) := by
  refine ⟨by decide, rfl, rfl, rfl, rfl, rfl, rfl, by decide⟩

/-! ## C13 -/

theorem isArrayMalloc_of_not_isMalloc (L : Lib) (ir : IR) (CI : Addr)
    (hm : isMalloc ir (Value.callInst CI) = false) :
    isArrayMalloc L ir (Value.callInst CI) = Except.ok none := by
  rw [isMalloc_callInst] at hm
  unfold isArrayMalloc
  rw [extractMallocCall_callInst, hm]
  rfl

/-- C13, counterexample: `call 3` of the example program calls function 1,
which is not `malloc`, with the argument `i32 4`; `getMallocArraySize` does not
abort but returns the constant `i32 1`. -/
theorem getMallocArraySize_not_malloc_counterexample :
    isMalloc exIR (Value.callInst 3) = false ∧
      extractMallocCall exIR (Value.callInst 3) = none ∧
      getMallocArraySize exLib exIR 3 = Except.ok (Value.constantInt i32 1) := by
  refine ⟨by decide, by decide, rfl⟩

/-- C13, amended: `getMallocArraySize` makes no recognition check.  For every
call that is not a recognised allocation, `isArrayMalloc` returns null and
`getMallocArraySize` returns the constant 1 of the type of operand 1 of the
call when the call has such an operand and its type is an integer type.  It
aborts in the operand access when the call has no argument, and in
`ConstantInt::get` when the type of operand 1 is not an integer type. -/
theorem getMallocArraySize_not_malloc (L : Lib) (ir : IR) (CI : Addr)
    (hm : isMalloc ir (Value.callInst CI) = false) :
    isArrayMalloc L ir (Value.callInst CI) = Except.ok none ∧
    (∀ Arg w, getOperand ir (Value.callInst CI) 1 = Except.ok Arg →
      getType ir Arg = Ty.int w →
      getMallocArraySize L ir CI = Except.ok (Value.constantInt (getType ir Arg) 1)) ∧
    ((ir.call CI).args = [] →
      getMallocArraySize L ir CI = Except.error Fault.operandOutOfRange) ∧
    (∀ Arg, getOperand ir (Value.callInst CI) 1 = Except.ok Arg →
      (∀ w, getType ir Arg ≠ Ty.int w) →
      getMallocArraySize L ir CI = Except.error Fault.castIntegerType) := by
  have hA := isArrayMalloc_of_not_isMalloc L ir CI hm
  refine ⟨hA, ?_, ?_, ?_⟩
  · intro Arg w harg hw
    rw [getMallocArraySize_of_not_array L ir CI Arg harg hA, hw]
    rfl
  · intro hargs
    have hO : getOperand ir (Value.callInst CI) 1 = Except.error Fault.operandOutOfRange := by
      simp [getOperand, operands, hargs]
    unfold getMallocArraySize
    simp only [hA, hO]
  · intro Arg harg hw
    rw [getMallocArraySize_of_not_array L ir CI Arg harg hA]
    exact ConstantInt_get_not_int _ _ hw

/-- C13, witness: `call 3` of the example program returns the constant
`i32 1`, and `call void @free(i8* %p)`, `call 0` of the third example program,
aborts in `ConstantInt::get`. -/
theorem getMallocArraySize_not_malloc_witness :
    (isMalloc exIR (Value.callInst 3) = false ∧
      getOperand exIR (Value.callInst 3) 1 = Except.ok (Value.constantInt i32 4) ∧
      getMallocArraySize exLib exIR 3 =
        Except.ok (Value.constantInt (getType exIR (Value.constantInt i32 4)) 1)) ∧
    (isMalloc exIR3 (Value.callInst 0) = false ∧
      getOperand exIR3 (Value.callInst 0) 1 = Except.ok (Value.otherValue 0) ∧
      getMallocArraySize exLib exIR3 0 = Except.error Fault.castIntegerType) :=
  have h1 : isMalloc exIR (Value.callInst 3) = false := by decide
  have h2 : isMalloc exIR3 (Value.callInst 0) = false := by decide
  ⟨⟨h1, rfl, (getMallocArraySize_not_malloc exLib exIR 3 h1).2.1 _ 32 rfl rfl⟩,
    ⟨h2, rfl, (getMallocArraySize_not_malloc exLib exIR3 0 h2).2.2.2 _ rfl
      (fun w hw => by cases hw)⟩⟩

/-! ## C14 -/

theorem findBitCastUse_error (us : List Value) (f : Fault)
    (h : findBitCastUse us = Except.error f) : f = Fault.castInstruction := by
  induction us with
  | nil => simp [findBitCastUse] at h
  | cons u rest ih =>
    unfold findBitCastUse at h
    cases hi : isInstruction u with
    | false =>
      simp only [hi, Bool.false_eq_true, if_false, Except.error.injEq] at h
      exact h.symm
    | true =>
      simp only [hi, if_true] at h
      cases hb : dynCastBitCastInst u with
      | some b => simp [hb] at h
      | none =>
        simp only [hb] at h
        exact ih h

theorem castPointerType_error (t : Ty) (f : Fault)
    (h : castPointerType t = Except.error f) : f = Fault.castPointerType := by
  cases t <;> simp [castPointerType] at h <;> exact h.symm

theorem getMallocType_of_not_isMalloc (ir : IR) (CI : Addr)
    (hm : isMalloc ir (Value.callInst CI) = false) :
    getMallocType ir CI = Except.error Fault.notMallocCall := by
  unfold getMallocType
  simp [hm]

/-- On a recognised call the only checks of `getMallocType` that can fail are
the two checked downcasts. -/
theorem getMallocType_error_of_isMalloc (ir : IR) (CI : Addr) (f : Fault)
    (hm : isMalloc ir (Value.callInst CI) = true)
    (h : getMallocType ir CI = Except.error f) :
    f = Fault.castInstruction ∨ f = Fault.castPointerType := by
  rw [getMallocType_of_isMalloc ir CI hm] at h
  cases hf : findBitCastUse (ir.call CI).uses with
  | error g =>
    simp only [hf, Except.error.injEq] at h
    subst h
    exact Or.inl (findBitCastUse_error _ _ hf)
  | ok o =>
    cases o with
    | none =>
      simp only [hf] at h
      cases hc : castPointerType (ir.call CI).ty with
      | ok P => simp [hc] at h
      | error g =>
        simp only [hc, Except.error.injEq] at h
        subst h
        exact Or.inr (castPointerType_error _ _ hc)
    | some b =>
      simp only [hf] at h
      cases ho : hasOneUse ir CI with
      | false => simp [ho] at h
      | true =>
        simp only [ho, if_true] at h
        cases hc : castPointerType (ir.bitcast b).destTy with
        | ok P => simp [hc] at h
        | error g =>
          simp only [hc, Except.error.injEq] at h
          subst h
          exact Or.inr (castPointerType_error _ _ hc)

/-- C14, counterexample: three recognised malloc calls of the second example
program on which `getMallocType` returns neither a type nor null.  The only
user of `call 3` is not an instruction; `call 4` has no uses and the result
type `i32`, which is not a pointer type; the only use of `call 6` is a bitcast
to `float`, which is not a pointer type.  The checked downcasts abort. -/
theorem getMallocType_recognised_abort_counterexample :
    (isMalloc exIR2 (Value.callInst 3) = true ∧
      getMallocType exIR2 3 = Except.error Fault.castInstruction ∧
      getMallocAllocatedType exIR2 3 = Except.error Fault.castInstruction) ∧
    (isMalloc exIR2 (Value.callInst 4) = true ∧
      getMallocType exIR2 4 = Except.error Fault.castPointerType ∧
      getMallocAllocatedType exIR2 4 = Except.error Fault.castPointerType) ∧
    (isMalloc exIR2 (Value.callInst 6) = true ∧
      (exIR2.call 6).uses = [Value.bitCastInst 6] ∧
      (exIR2.bitcast 6).destTy = floatTy ∧
      getMallocType exIR2 6 = Except.error Fault.castPointerType ∧
      getMallocAllocatedType exIR2 6 = Except.error Fault.castPointerType) := by
  refine ⟨⟨by decide, rfl, rfl⟩, ⟨by decide, rfl, rfl⟩, ⟨by decide, rfl, rfl, rfl, rfl⟩⟩

/-- C14, amended: on a call that is not a recognised allocation the `isMalloc`
assertion of `getMallocType` fails, so `getMallocType` and
`getMallocAllocatedType` yield neither a type nor null.  Conversely, on every
recognised malloc call the assertion holds, and the functions return a type or
null provided the users of the call are instructions, the result type of the
call is a pointer type and the bitcast uses cast to pointer types. -/
theorem getMallocType_assertion (ir : IR) (CI : Addr) :
    (isMalloc ir (Value.callInst CI) = false →
      getMallocType ir CI = Except.error Fault.notMallocCall ∧
      getMallocAllocatedType ir CI = Except.error Fault.notMallocCall) ∧
    (isMalloc ir (Value.callInst CI) = true →
      getMallocType ir CI ≠ Except.error Fault.notMallocCall ∧
      getMallocAllocatedType ir CI ≠ Except.error Fault.notMallocCall ∧
      (UsesAreInstructions ir CI →
        (∃ e, (ir.call CI).ty = Ty.ptr e) →
        (∀ b, Value.bitCastInst b ∈ (ir.call CI).uses →
          ∃ e, (ir.bitcast b).destTy = Ty.ptr e) →
        ∃ r, getMallocType ir CI = Except.ok r ∧
          getMallocAllocatedType ir CI = Except.ok (r.map PointerType.elem))) := by
  refine ⟨?_, ?_⟩
  · intro hm
    have h := getMallocType_of_not_isMalloc ir CI hm
    refine ⟨h, ?_⟩
    unfold getMallocAllocatedType
    rw [h]
  · intro hm
    have hne : getMallocType ir CI ≠ Except.error Fault.notMallocCall := by
      intro h
      rcases getMallocType_error_of_isMalloc ir CI _ hm h with h2 | h2 <;> cases h2
    refine ⟨hne, ?_, ?_⟩
    · intro h
      unfold getMallocAllocatedType at h
      cases hg : getMallocType ir CI with
      | ok r => simp [hg] at h
      | error f =>
        simp only [hg, Except.error.injEq] at h
        subst h
        exact hne hg
    · intro hinst hty hdest
      have hr : ∃ r, getMallocType ir CI = Except.ok r := by
        by_cases hb : ∃ b, Value.bitCastInst b ∈ (ir.call CI).uses
        · obtain ⟨b, hb⟩ := hb
          by_cases hlen : 2 ≤ (ir.call CI).uses.length
          · exact ⟨none, getMallocType_bitcast_and_more ir CI b hm hinst hb hlen⟩
          · have hu : (ir.call CI).uses = [Value.bitCastInst b] := by
              cases hus : (ir.call CI).uses with
              | nil => rw [hus] at hb; cases hb
              | cons x rest =>
                cases rest with
                | nil =>
                  rw [hus, List.mem_singleton] at hb
                  rw [hb]
                | cons y rest2 =>
                  rw [hus] at hlen
                  simp at hlen
            obtain ⟨e, he⟩ := hdest b hb
            exact ⟨some ⟨e⟩, getMallocType_single_bitcast ir CI b e hm hu he⟩
        · have hno : NoBitCastUse ir CI := by
            intro u hu
            cases u with
            | bitCastInst b => exact absurd ⟨b, hu⟩ hb
            | _ => rfl
          obtain ⟨e, he⟩ := hty
          exact ⟨some ⟨e⟩, getMallocType_no_bitcast ir CI e hm hinst hno he⟩
      obtain ⟨r, hr⟩ := hr
      refine ⟨r, hr, ?_⟩
      unfold getMallocAllocatedType
      rw [hr]

/-- C14, witness: `call 3` of the example program is not recognised and the
assertion fails; `call 0` is recognised and its type is returned. -/
theorem getMallocType_assertion_witness :
    (isMalloc exIR (Value.callInst 3) = false ∧
      getMallocType exIR 3 = Except.error Fault.notMallocCall) ∧
    (isMalloc exIR (Value.callInst 0) = true ∧
      getMallocType exIR 0 ≠ Except.error Fault.notMallocCall) :=
  have h1 : isMalloc exIR (Value.callInst 3) = false := by decide
  have h2 : isMalloc exIR (Value.callInst 0) = true := by decide
  ⟨⟨h1, ((getMallocType_assertion exIR 3).1 h1).1⟩,
    ⟨h2, ((getMallocType_assertion exIR 0).2 h2).1⟩⟩

/-! ## C15 -/

/-- C15: for every value `v`, `extractMallocCall v` returns `v` itself when `v`
is a malloc call and null otherwise.  It never unwraps casts: for a bitcast
`v` of a malloc call `c`, `extractMallocCall v` is null while
`extractMallocCallFromBitCast v` returns `c`.  At most one of the two
extractors is non-null. -/
theorem extractMallocCall_spec (ir : IR) (v : Value) :
    (IsCallToMalloc ir v →
      ∃ c, v = Value.callInst c ∧ extractMallocCall ir v = some c) ∧
    (¬ IsCallToMalloc ir v → extractMallocCall ir v = none) ∧
    (∀ b c, v = Value.bitCastInst b → (ir.bitcast b).operand = Value.callInst c →
      IsCallToMalloc ir (Value.callInst c) →
      extractMallocCall ir v = none ∧ extractMallocCallFromBitCast ir v = some c) ∧
    ¬ ((extractMallocCall ir v).isSome = true ∧
      (extractMallocCallFromBitCast ir v).isSome = true) := by
  refine ⟨?_, ?_, ?_, ?_⟩
  · intro h
    obtain ⟨c, f, hv, _, _⟩ := id h
    refine ⟨c, hv, ?_⟩
    have hs := (extractMallocCall_isSome ir v).mpr h
    subst hv
    rw [extractMallocCall_callInst] at hs ⊢
    by_cases hm : isMallocCall ir (some c) = true
    · rw [if_pos hm]
    · rw [if_neg hm] at hs
      cases hs
  · intro h
    have hs := (extractMallocCall_isSome ir v).not.mpr h
    cases he : extractMallocCall ir v with
    | none => rfl
    | some c => simp [he] at hs
  · intro b c hv hop hc
    subst hv
    refine ⟨by simp [extractMallocCall, dynCastCallInst, isMallocCall], ?_⟩
    have hm : isMallocCall ir (some c) = true := by
      have := (isMallocCall_dynCast_iff ir (Value.callInst c)).mpr hc
      simpa [dynCastCallInst] using this
    simp [extractMallocCallFromBitCast, dynCastBitCastInst, isBitCastOfMallocCall, hop,
      dynCastCallInst, hm]
  · rintro ⟨h1, h2⟩
    obtain ⟨c, f, hv, _, _⟩ := (extractMallocCall_isSome ir v).mp h1
    obtain ⟨b, hv2, _⟩ := (extractMallocCallFromBitCast_isSome ir v).mp h2
    rw [hv] at hv2
    cases hv2

/-! ## C16 -/

/-- C16, counterexample: `call 5` of the second example program is
`malloc(mul (i32 10, sizeof(i8)))` without any use, hence without a bitcast
use.  Its element type is `i8`, taken from the result type `i8*` of the call,
and the call is array-classified, with count 10. -/
theorem isArrayMalloc_no_bitcast_counterexample :
    isMalloc exIR2 (Value.callInst 5) = true ∧
      (exIR2.call 5).uses = [] ∧
      NoBitCastUse exIR2 5 ∧
      ¬ (∃ b, (exIR2.call 5).uses = [Value.bitCastInst b]) ∧
      getMallocAllocatedType exIR2 5 = Except.ok (some (Ty.int 8)) ∧
      isArrayMalloc exLib2 exIR2 (Value.callInst 5) = Except.ok (some 5) ∧
      getMallocArraySize exLib2 exIR2 5 = Except.ok (Value.constantInt i32 10) := by
  refine ⟨by decide, rfl, by decide, ?_, rfl, rfl, rfl⟩
  rintro ⟨b, hb⟩
  have h : (exIR2.call 5).uses = [] := rfl
  rw [h] at hb
  cases hb

/-- C16, amended: for every value `I`, if `isArrayMalloc I` returns a call then
`I` is that call, it is a malloc call, and either it has exactly one use and
that use is a bitcast, or none of its uses is a bitcast and the element type
is the element type of the result type of the call. -/
theorem isArrayMalloc_uses (L : Lib) (ir : IR) (I : Value) (CI : Addr)
    (h : isArrayMalloc L ir I = Except.ok (some CI)) :
    I = Value.callInst CI ∧ isMalloc ir (Value.callInst CI) = true ∧
      ((∃ b, (ir.call CI).uses = [Value.bitCastInst b]) ∨
        (NoBitCastUse ir CI ∧
          ∃ T, getMallocAllocatedType ir CI = Except.ok (some T) ∧
            (ir.call CI).ty = Ty.ptr T)) := by
  obtain ⟨hI, T, MallocArg, hT, _, _⟩ := isArrayMalloc_some_inv L ir I CI h
  refine ⟨hI, getMallocAllocatedType_ok_isMalloc ir CI _ hT, ?_⟩
  have hT2 := hT
  unfold getMallocAllocatedType at hT2
  cases hg : getMallocType ir CI with
  | error f => simp [hg] at hT2
  | ok r =>
    cases r with
    | none => simp [hg] at hT2
    | some PT =>
      simp only [hg, Option.map_some', Except.ok.injEq, Option.some.injEq] at hT2
      rcases getMallocType_some_inv ir CI PT hg with ⟨hno, hty⟩ | ⟨b, hu, _⟩
      · right
        refine ⟨hno, T, hT, ?_⟩
        rw [hty, ← hT2]
        rfl
      · exact Or.inl ⟨b, hu⟩

/-- C16, witness: `call 0` of the example program, array-classified with a
single bitcast use, and `call 5` of the second example program,
array-classified without a bitcast use. -/
theorem isArrayMalloc_uses_witness :
    (isArrayMalloc exLib exIR (Value.callInst 0) = Except.ok (some 0) ∧
      isMalloc exIR (Value.callInst 0) = true) ∧
    (isArrayMalloc exLib2 exIR2 (Value.callInst 5) = Except.ok (some 5) ∧
      isMalloc exIR2 (Value.callInst 5) = true) :=
  ⟨⟨rfl, (isArrayMalloc_uses exLib exIR (Value.callInst 0) 0 rfl).2.1⟩,
    ⟨rfl, (isArrayMalloc_uses exLib2 exIR2 (Value.callInst 5) 5 rfl).2.1⟩⟩

/-! ## C17 -/

/-- C17, counterexample: `call 4` of the second example program is
`call i32 @malloc(i32 4)`, a recognised malloc call whose size argument is an
integer literal and which has no uses.  Its result type `i32` is not a
pointer type, so the type recovery aborts in `cast<PointerType>`:
`isArrayMalloc` does not return null and `getMallocArraySize` does not return
the literal 1. -/
theorem isArrayMalloc_literal_abort_counterexample :
    isMalloc exIR2 (Value.callInst 4) = true ∧
      getOperand exIR2 (Value.callInst 4) 1 = Except.ok (Value.constantInt i32 4) ∧
      (exIR2.call 4).ty = Ty.int 32 ∧
      isArrayMalloc exLib2 exIR2 (Value.callInst 4) = Except.error Fault.castPointerType ∧
      getMallocArraySize exLib2 exIR2 4 = Except.error Fault.castPointerType := by
  refine ⟨by decide, rfl, rfl, rfl, rfl⟩

/-- C17, amended: for every malloc call whose size argument is an integer
literal and on which the type recovery `getMallocAllocatedType` returns (a
type or null) rather than aborting in one of its checked downcasts,
`isArrayMalloc` returns null and `getMallocArraySize` returns the literal 1 of
the type of the size argument, whatever the value of the literal and whatever
the element type.  The element-size constant is a constant expression, as the
constant factory builds it. -/
theorem isArrayMalloc_literal (L : Lib) (ir : IR) (CI : Addr) (w n : Nat)
    (r : Option Ty)
    (harg : getOperand ir (Value.callInst CI) 1 =
      Except.ok (Value.constantInt (Ty.int w) n))
    (hT : getMallocAllocatedType ir CI = Except.ok r)
    (hES : ∀ T, r = some T →
      isConstantExpr (elementSize L ir T (Value.constantInt (Ty.int w) n)) = true) :
    isArrayMalloc L ir (Value.callInst CI) = Except.ok none ∧
      getMallocArraySize L ir CI = Except.ok (Value.constantInt (Ty.int w) 1) := by
  have hA : isArrayMalloc L ir (Value.callInst CI) = Except.ok none := by
    cases r with
    | none => exact isArrayMalloc_indeterminate_type_aux L ir CI hT
    | some T =>
      rw [isArrayMalloc_eq L ir CI T _ hT harg (hES T rfl)]
      simp [isConstantExpr, dynCastBinaryOperator]
  refine ⟨hA, ?_⟩
  rw [getMallocArraySize_of_not_array L ir CI _ harg hA]
  rfl

/-- C17, witness: `call 2` of the second example program, `malloc(i32 40)` with
a single bitcast to `i32*`, is not array-classified although 40 differs from
the element size 4, and its count is the literal 1. -/
theorem isArrayMalloc_literal_witness :
    getOperand exIR2 (Value.callInst 2) 1 = Except.ok (Value.constantInt i32 40) ∧
      getMallocAllocatedType exIR2 2 = Except.ok (some (Ty.int 32)) ∧
      exLib2.fold (elementSize exLib2 exIR2 (Ty.int 32) (Value.constantInt i32 40)) =
        some (Value.constantInt i32 4) ∧
      isArrayMalloc exLib2 exIR2 (Value.callInst 2) = Except.ok none ∧
      getMallocArraySize exLib2 exIR2 2 = Except.ok (Value.constantInt i32 1) :=
  ⟨rfl, rfl, rfl,
    isArrayMalloc_literal exLib2 exIR2 2 32 40 (some (Ty.int 32)) rfl rfl
      (fun T hT => by cases hT; rfl)⟩

/-! ## C18 -/

/-- C18: for every call on which `isArrayMalloc` is non-null, none of the
assertions of `getMallocArraySize` fails.  The allocated element type is
non-null and the size argument is a constant or a binary operator, so the
"malformed malloc IR" branch is not reached and the function returns a value:
operand 0 of the constant or operand 0 of the binary operator.  A constant
expression has at least one operand. -/
theorem getMallocArraySize_array_returns (L : Lib) (ir : IR) (CI c : Addr)
    (h : isArrayMalloc L ir (Value.callInst CI) = Except.ok (some c))
    (hops : ∀ e, getOperand ir (Value.callInst CI) 1 = Except.ok (Value.constantExpr e) →
      operands ir (Value.constantExpr e) ≠ []) :
    ∃ T MallocArg v,
      getMallocAllocatedType ir CI = Except.ok (some T) ∧
      getOperand ir (Value.callInst CI) 1 = Except.ok MallocArg ∧
      (isConstant MallocArg = true ∨ ∃ m, MallocArg = Value.binaryOperator m) ∧
      getMallocArraySize L ir CI = Except.ok v ∧
      (v = MallocArg ∨
        (isConstant MallocArg = true ∧ getOperand ir MallocArg 0 = Except.ok v) ∨
        (∃ m, MallocArg = Value.binaryOperator m ∧ v = (ir.binop m).lhs)) ∧
      getMallocArraySize L ir CI ≠ Except.error Fault.noType ∧
      getMallocArraySize L ir CI ≠ Except.error Fault.malformedMallocIR ∧
      getMallocArraySize L ir CI ≠ Except.error Fault.notMultiplication := by
  obtain ⟨T, MallocArg, hT, harg, _, hshape, hsize⟩ := getMallocArraySize_of_array L ir CI c h
  rcases hshape with ⟨e, rfl⟩ | ⟨m, rfl⟩
  · have hne := hops e harg
    cases hop : operands ir (Value.constantExpr e) with
    | nil => exact absurd hop hne
    | cons v rest =>
      have hv : getOperand ir (Value.constantExpr e) 0 = Except.ok v := by
        simp [getOperand, hop]
      rw [hv] at hsize
      refine ⟨T, Value.constantExpr e, v, hT, harg, Or.inl rfl, hsize,
        Or.inr (Or.inl ⟨rfl, hv⟩), ?_, ?_, ?_⟩ <;>
      · rw [hsize]
        intro hx
        cases hx
  · have hv : getOperand ir (Value.binaryOperator m) 0 = Except.ok (ir.binop m).lhs := rfl
    rw [hv] at hsize
    refine ⟨T, Value.binaryOperator m, (ir.binop m).lhs, hT, harg, Or.inr ⟨m, rfl⟩, hsize,
      Or.inr (Or.inr ⟨m, rfl, rfl⟩), ?_, ?_, ?_⟩ <;>
    · rw [hsize]
      intro hx
      cases hx

/-- C18, witness: `call 5` of the example program, whose size argument is the
constant expression `mul (i32 10, sizeof(i32))`; the count is `i32 10`. -/
theorem getMallocArraySize_array_returns_witness :
    isArrayMalloc exLib exIR (Value.callInst 5) = Except.ok (some 5) ∧
      operands exIR (Value.constantExpr 13) ≠ [] ∧
      ∃ v, getMallocArraySize exLib exIR 5 = Except.ok v :=
  have h1 : isArrayMalloc exLib exIR (Value.callInst 5) = Except.ok (some 5) := rfl
  have h2 : ∀ e, getOperand exIR (Value.callInst 5) 1 = Except.ok (Value.constantExpr e) →
      operands exIR (Value.constantExpr e) ≠ [] := by
    intro e he
    have h3 : getOperand exIR (Value.callInst 5) 1 = Except.ok (Value.constantExpr 13) := rfl
    rw [h3] at he
    cases he
    decide
  ⟨h1, by decide,
    match getMallocArraySize_array_returns exLib exIR 5 5 h1 h2 with
    | ⟨_, _, v, _, _, _, hv, _⟩ => ⟨v, hv⟩⟩

/-! ## C19 -/

/-- C19: for every value `I`, a result of `isArrayMalloc I` is null or it is
`extractMallocCall I`, and then `I` is that call.  When `extractMallocCall I`
is null the result is null; in particular `isArrayMalloc` returns null on
every bitcast instruction, also on a bitcast of an array-classified malloc
call, for which `isMalloc` is true. -/
theorem isArrayMalloc_null_or_extract (L : Lib) (ir : IR) (I : Value) :
    (∀ r, isArrayMalloc L ir I = Except.ok r →
      r = none ∨ (r = extractMallocCall ir I ∧ ∃ c, I = Value.callInst c ∧ r = some c)) ∧
    (extractMallocCall ir I = none → isArrayMalloc L ir I = Except.ok none) ∧
    (∀ b, I = Value.bitCastInst b → isArrayMalloc L ir I = Except.ok none) := by
  have h2 : extractMallocCall ir I = none → isArrayMalloc L ir I = Except.ok none := by
    intro he
    unfold isArrayMalloc
    simp only [he]
    rfl
  refine ⟨?_, h2, ?_⟩
  · intro r h
    cases r with
    | none => exact Or.inl rfl
    | some c =>
      right
      obtain ⟨hI, T, _, hT, _, _⟩ := isArrayMalloc_some_inv L ir I c h
      subst hI
      have hm := getMallocAllocatedType_ok_isMalloc ir c _ hT
      exact ⟨(extractMallocCall_of_isMalloc ir c hm).symm, c, rfl, rfl⟩
  · intro b hb
    apply h2
    subst hb
    simp [extractMallocCall, dynCastCallInst, isMallocCall]

/-- C19, witness: in the example program `bitcast 0` wraps `call 0`, which is
array-classified; `isMalloc` holds for the wrapper and `isArrayMalloc` returns
null on it. -/
theorem isArrayMalloc_null_or_extract_witness :
    isMalloc exIR (Value.bitCastInst 0) = true ∧
      extractMallocCallFromBitCast exIR (Value.bitCastInst 0) = some 0 ∧
      isArrayMalloc exLib exIR (Value.callInst 0) = Except.ok (some 0) ∧
      isArrayMalloc exLib exIR (Value.bitCastInst 0) = Except.ok none :=
  ⟨by decide, by decide, rfl,
    (isArrayMalloc_null_or_extract exLib exIR (Value.bitCastInst 0)).2.2 0 rfl⟩

end MallocHelper
